import Mathlib

/-!
# Mod metadata extraction (`LocalModParseTask.cpp`)

A shallow embedding of the four metadata decoders (`ReadMCModInfo`,
`ReadFabricModInfo`, `ReadForgeInfo`, `ReadLiteModInfo`) and of the
locator functions of `LocalModParseTask`, followed by theorems about them.

Conventions of the embedding:

* `QString` is a Lean `String`; a null `QString` and an empty one are both `""`.
* `QByteArray` is a list of bytes.
* A JSON number (a C++ `double`) is a rational number; every finite double is one.
* `std::shared_ptr<ModDetails>` is `Option ModDetails`, `nullptr` being `none`.
* The JSON parser (`QJsonDocument::fromJson`) and the INI parser
  (`INIFile::loadFile`) are collaborators outside this file of the
  repository; the decoders take them as parameters.
-/

namespace MultiMC

/-! ## Strings -/

abbrev QString := String

abbrev QByteArray := List UInt8

/-- Embeds `QChar::isSpace`: the ASCII controls tab to carriage return, the space,
U+0085, U+00A0 and the characters of the Unicode separator categories
(Zs, Zl, Zp). -/
def QChar.isSpace (c : Char) : Bool :=
  let n := c.toNat
  n == 0x20 || (0x09 ≤ n && n ≤ 0x0d) || n == 0x85 || n == 0xa0 || n == 0x1680 ||
    (0x2000 ≤ n && n ≤ 0x200a) || n == 0x2028 || n == 0x2029 || n == 0x202f ||
    n == 0x205f || n == 0x3000

/-- Embeds `QString::trimmed`: whitespace removed from the start and the end. -/
def QString.trimmed (s : QString) : QString :=
  String.mk ((s.data.dropWhile QChar.isSpace).reverse.dropWhile QChar.isSpace).reverse

/-- Embeds `QString::isEmpty`. -/
def QString.isEmpty (s : QString) : Bool :=
  s.data.isEmpty

/-- Embeds `QString::startsWith`. -/
def QString.startsWith (s p : QString) : Bool :=
  p.data.isPrefixOf s.data

/-- Embeds `QString::prepend`: the string with `p` put in front (the source mutates in place). -/
def QString.prepend (s p : QString) : QString :=
  p ++ s

/-! ## JSON values (`QJsonValue`, `QJsonObject`, `QJsonArray`, `QJsonDocument`) -/

/-- Embeds `QJsonValue`. An object is a list of members; a lookup finds the first
member with the key. -/
inductive QJsonValue where
  | null
  | bool (b : Bool)
  | double (d : ℚ)
  | string (s : QString)
  | array (a : List QJsonValue)
  | object (o : List (QString × QJsonValue))
  | undefined

abbrev QJsonArray := List QJsonValue

abbrev QJsonObject := List (QString × QJsonValue)

/-- Embeds `QJsonDocument` as returned by `QJsonDocument::fromJson`: a parse failure
gives the null document. -/
inductive QJsonDocument where
  | ofNull
  | ofArray (a : QJsonArray)
  | ofObject (o : QJsonObject)

/-- Embeds `QJsonObject::value`: the value stored under `key`, `Undefined` without one. -/
def QJsonObject.value : QJsonObject → QString → QJsonValue
  | [], _ => QJsonValue.undefined
  | (k, v) :: rest, key => if k = key then v else QJsonObject.value rest key

/-- Embeds `QJsonObject::contains`. -/
def QJsonObject.contains : QJsonObject → QString → Bool
  | [], _ => false
  | (k, _) :: rest, key => if k = key then true else QJsonObject.contains rest key

/-- Embeds `QJsonArray::at`: `Undefined` when the index is out of bounds. -/
def QJsonArray.at (a : QJsonArray) (i : Nat) : QJsonValue :=
  a.getD i QJsonValue.undefined

namespace QJsonValue

/-- Embeds `QJsonValue::isObject`. -/
def isObject : QJsonValue → Bool
  | object _ => true
  | _ => false

/-- Embeds `QJsonValue::isArray`. -/
def isArray : QJsonValue → Bool
  | array _ => true
  | _ => false

/-- Embeds `QJsonValue::isUndefined`. -/
def isUndefined : QJsonValue → Bool
  | undefined => true
  | _ => false

/-- Embeds `QJsonValue::toString(defaultValue)`; the call `toString()` of the source passes
the null string, written `""` here. -/
def toString (v : QJsonValue) (defaultValue : QString) : QString :=
  match v with
  | string s => s
  | _ => defaultValue

/-- Embeds `QJsonValue::toObject()`: the empty object for anything else. -/
def toObject : QJsonValue → QJsonObject
  | object o => o
  | _ => []

/-- Embeds `QJsonValue::toArray()`: the empty array for anything else. -/
def toArray : QJsonValue → QJsonArray
  | array a => a
  | _ => []

/-- Embeds `QJsonValue::toDouble()`: `0` for anything that is not a number. -/
def toDouble : QJsonValue → ℚ
  | double d => d
  | _ => 0

/-- Embeds `QJsonValue::toInt(defaultValue)`: the number when it is whole and fits a
32-bit `int` (`int(dbl) == dbl`), the default otherwise. -/
def toInt (v : QJsonValue) (defaultValue : Int) : Int :=
  match v with
  | double d =>
    if d.den = 1 ∧ -2147483648 ≤ d.num ∧ d.num ≤ 2147483647 then d.num else defaultValue
  | _ => defaultValue

end QJsonValue

/-- Embeds `QJsonDocument::isArray`. -/
def QJsonDocument.isArray : QJsonDocument → Bool
  | .ofArray _ => true
  | _ => false

/-- Embeds `QJsonDocument::isObject`. -/
def QJsonDocument.isObject : QJsonDocument → Bool
  | .ofObject _ => true
  | _ => false

/-- Embeds `QJsonDocument::array()`: empty unless the document is an array. -/
def QJsonDocument.array : QJsonDocument → QJsonArray
  | .ofArray a => a
  | _ => []

/-- Embeds `QJsonDocument::object()`: empty unless the document is an object. -/
def QJsonDocument.object : QJsonDocument → QJsonObject
  | .ofObject o => o
  | _ => []

/-- The C++ conversion `int version = <double>`: truncation toward zero.
Outside the range of `int` the conversion is undefined in C++; the value
taken here is the one x86-64 produces, `INT_MIN`. -/
def doubleToInt (d : ℚ) : Int :=
  let t : Int := if 0 ≤ d then ⌊d⌋ else ⌈d⌉
  if -2147483648 ≤ t ∧ t ≤ 2147483647 then t else -2147483648

/-! ## The descriptor (`ModDetails`) -/

/-- Modelled from the spec: the declaration of `ModDetails` is not among the
sources read here. The fields are those the decoders assign, which are the
fields of the descriptor model; each starts out empty. -/
structure ModDetails where
  mod_id : QString := ""
  name : QString := ""
  version : QString := ""
  mcversion : QString := ""
  homeurl : QString := ""
  updateurl : QString := ""
  description : QString := ""
  authors : List QString := []
  credits : QString := ""
  deriving DecidableEq, Repr

/-! ## `INIFile` -/

/-- Modelled from the spec: `INIFile` (settings/INIFile.h) is not among the
sources read here. The INI parser turns the bytes into a key/value map or
fails; this is the map after a successful `loadFile`. -/
abbrev INIFile := List (QString × QString)

/-- Modelled from the spec: `INIFile::get(key, def).toString()`, the value
stored under the key, the default without one. -/
def INIFile.get (ini : INIFile) (key : QString) (defaultValue : QString) : QString :=
  (ini.lookup key).getD defaultValue

/-! ## The decoders -/

/-- Embeds `ReadForgeInfo`. `loadFile` is `INIFile::loadFile`: `none` when it returns
`false`, the loaded map otherwise. -/
def ReadForgeInfo (loadFile : QByteArray → Option INIFile) (contents : QByteArray) :
    Option ModDetails :=
  let details : ModDetails := {}
  let details := { details with name := "Minecraft Forge" }
  let details := { details with mod_id := "Forge" }
  let details := { details with homeurl := "http://www.minecraftforge.net/forum/" }
  match loadFile contents with
  | none => some details
  | some ini =>
    let major := ini.get "forge.major.number" "0"
    let minor := ini.get "forge.minor.number" "0"
    let revision := ini.get "forge.revision.number" "0"
    let build := ini.get "forge.build.number" "0"
    some { details with version := major ++ "." ++ minor ++ "." ++ revision ++ "." ++ build }

/-- The lambda `getInfoFromArray` of `ReadMCModInfo`. -/
def getInfoFromArray (arr : QJsonArray) : Option ModDetails :=
  if !(arr.at 0).isObject then
    none
  else
    let details : ModDetails := {}
    let firstObj := (arr.at 0).toObject
    let details := { details with mod_id := (firstObj.value "modid").toString "" }
    let name := (firstObj.value "name").toString ""
    let details := if name ≠ "Example Mod" then { details with name := name } else details
    let details := { details with version := (firstObj.value "version").toString "" }
    let details := { details with updateurl := (firstObj.value "updateUrl").toString "" }
    let homeurl := ((firstObj.value "url").toString "").trimmed
    let homeurl :=
      if !homeurl.isEmpty then
        if !homeurl.startsWith "http://" && !homeurl.startsWith "https://" &&
            !homeurl.startsWith "ftp://" then
          homeurl.prepend "http://"
        else homeurl
      else homeurl
    let details := { details with homeurl := homeurl }
    let details := { details with description := (firstObj.value "description").toString "" }
    let authors := (firstObj.value "authorList").toArray
    let authors := if authors.length = 0 then (firstObj.value "authors").toArray else authors
    let details := authors.foldl
      (fun d author => { d with authors := d.authors ++ [author.toString ""] }) details
    let details := { details with credits := (firstObj.value "credits").toString "" }
    some details

/-- Embeds `ReadMCModInfo`. `fromJson` is `QJsonDocument::fromJson`. -/
def ReadMCModInfo (fromJson : QByteArray → QJsonDocument) (contents : QByteArray) :
    Option ModDetails :=
  let jsonDoc := fromJson contents
  if jsonDoc.isArray then
    getInfoFromArray jsonDoc.array
  else if jsonDoc.isObject then
    let val := jsonDoc.object.value "modinfoversion"
    let val := if val.isUndefined then jsonDoc.object.value "modListVersion" else val
    let version := doubleToInt val.toDouble
    if version ≠ 2 then
      none
    else
      let arrVal := jsonDoc.object.value "modlist"
      let arrVal := if arrVal.isUndefined then jsonDoc.object.value "modList" else arrVal
      if arrVal.isArray then
        getInfoFromArray arrVal.toArray
      else none
  else none

/-- Embeds `ReadFabricModInfo`. -/
def ReadFabricModInfo (fromJson : QByteArray → QJsonDocument) (contents : QByteArray) :
    Option ModDetails :=
  let jsonDoc := fromJson contents
  let object := jsonDoc.object
  let schemaVersion : Int :=
    if object.contains "schemaVersion" then (object.value "schemaVersion").toInt 0 else 0
  let details : ModDetails := {}
  let details := { details with mod_id := (object.value "id").toString "" }
  let details := { details with version := (object.value "version").toString "" }
  let details := { details with
    name := if object.contains "name" then (object.value "name").toString "" else details.mod_id }
  let details := { details with description := (object.value "description").toString "" }
  let details :=
    if schemaVersion ≥ 1 then
      let authors := (object.value "authors").toArray
      let details := authors.foldl
        (fun d author =>
          if author.isObject then
            { d with authors := d.authors ++ [(author.toObject.value "name").toString ""] }
          else
            { d with authors := d.authors ++ [author.toString ""] }) details
      if object.contains "contact" then
        let contact := (object.value "contact").toObject
        if contact.contains "homepage" then
          { details with homeurl := (contact.value "homepage").toString "" }
        else details
      else details
    else details
  some details

/-- The name the author loop of `ReadFabricModInfo` appends for one element of
"authors": the "name" member of an object, the string value of anything else. -/
def fabricAuthorName (author : QJsonValue) : QString :=
  if author.isObject then (author.toObject.value "name").toString "" else author.toString ""

/-- Embeds `ReadLiteModInfo`. -/
def ReadLiteModInfo (fromJson : QByteArray → QJsonDocument) (contents : QByteArray) :
    Option ModDetails :=
  let details : ModDetails := {}
  let jsonDoc := fromJson contents
  let object := jsonDoc.object
  let details :=
    if object.contains "name" then
      { details with
        mod_id := (object.value "name").toString "", name := (object.value "name").toString "" }
    else details
  let details :=
    if object.contains "version" then
      { details with version := (object.value "version").toString "" }
    else
      { details with version := (object.value "revision").toString "" }
  let details := { details with mcversion := (object.value "mcversion").toString "" }
  let author := (object.value "author").toString ""
  let details :=
    if !author.isEmpty then { details with authors := details.authors ++ [author] } else details
  let details := { details with description := (object.value "description").toString "" }
  let details := { details with homeurl := (object.value "url").toString "" }
  some details

/-! ## The parse task (`LocalModParseTask`) -/

/-- Modelled from the spec: the declaration of `Mod::ModType` is not among the
sources read here. `run` dispatches on the archive, directory and litemod
classifications; every other value performs no work. -/
inductive ModType where
  | MOD_UNKNOWN
  | MOD_ZIPFILE
  | MOD_SINGLEFILE
  | MOD_FOLDER
  | MOD_LITEMOD
  deriving DecidableEq, Repr

/-- An opened archive as the reader (`QuaZip`, `QuaZipFile`) presents it. For an
entry name: `none` when `setCurrentFile` fails, `some none` when the entry is
selected and `QuaZipFile::open` fails, `some (some bytes)` when `readAll`
returns `bytes`. -/
abbrev Archive := QString → Option (Option QByteArray)

/-- The collaborators of the task: the two parsers, the archive reader and the
file system. -/
structure Collaborators where
  /-- Embeds `QJsonDocument::fromJson`. -/
  fromJson : QByteArray → QJsonDocument
  /-- Embeds `INIFile::loadFile`, `none` when it returns `false`. -/
  loadFile : QByteArray → Option INIFile
  /-- Embeds `QuaZip::open(QuaZip::mdUnzip)` on a path, `none` when it fails. -/
  zipOpen : QString → Option Archive
  /-- Embeds `FS::PathCombine`. -/
  PathCombine : QString → QString → QString
  /-- Embeds `QFileInfo::isFile` of a path. -/
  isFile : QString → Bool
  /-- Embeds `QFile::open(QIODevice::ReadOnly)` followed by `readAll`, `none` when the
  open fails. -/
  readFile : QString → Option QByteArray

/-- What the task does to handles and signals, in the order it does it. -/
inductive Event where
  | zipOpened
  | zipClosed
  | fileOpened
  | fileClosed
  | finished (token : Int)
  deriving DecidableEq, Repr

/-- The state of a `LocalModParseTask`: its members, `details` standing for
`m_result->details`, and the events so far. -/
structure LocalModParseTask where
  m_token : Int
  m_type : ModType
  m_modFile : QString
  details : Option ModDetails
  events : List Event

/-- The constructor: `m_result` is a fresh `Result`, its `details` null. -/
def LocalModParseTask.new (token : Int) (type : ModType) (modFile : QString) :
    LocalModParseTask :=
  { m_token := token, m_type := type, m_modFile := modFile, details := none, events := [] }

/-- Records an event. -/
def LocalModParseTask.emit (t : LocalModParseTask) (e : Event) : LocalModParseTask :=
  { t with events := t.events ++ [e] }

/-- Embeds `LocalModParseTask::processAsZip`. -/
def LocalModParseTask.processAsZip (w : Collaborators) (t : LocalModParseTask) :
    LocalModParseTask :=
  match w.zipOpen t.m_modFile with
  | none => t
  | some zip =>
    let t := t.emit .zipOpened
    match zip "mcmod.info" with
    | some entry =>
      match entry with
      | none => t.emit .zipClosed
      | some bytes =>
        let t := t.emit .fileOpened
        let t := { t with details := ReadMCModInfo w.fromJson bytes }
        let t := t.emit .fileClosed
        t.emit .zipClosed
    | none =>
      match zip "fabric.mod.json" with
      | some entry =>
        match entry with
        | none => t.emit .zipClosed
        | some bytes =>
          let t := t.emit .fileOpened
          let t := { t with details := ReadFabricModInfo w.fromJson bytes }
          let t := t.emit .fileClosed
          t.emit .zipClosed
      | none =>
        match zip "forgeversion.properties" with
        | some entry =>
          match entry with
          | none => t.emit .zipClosed
          | some bytes =>
            let t := t.emit .fileOpened
            let t := { t with details := ReadForgeInfo w.loadFile bytes }
            let t := t.emit .fileClosed
            t.emit .zipClosed
        | none => t.emit .zipClosed

/-- Embeds `LocalModParseTask::processAsFolder`. A null `QByteArray` is an empty
list here, so `data.isEmpty() || data.isNull()` tests emptiness twice. -/
def LocalModParseTask.processAsFolder (w : Collaborators) (t : LocalModParseTask) :
    LocalModParseTask :=
  let mcmod_info := w.PathCombine t.m_modFile "mcmod.info"
  if w.isFile mcmod_info then
    match w.readFile mcmod_info with
    | none => t
    | some data =>
      if data.isEmpty || data.isEmpty then t
      else { t with details := ReadMCModInfo w.fromJson data }
  else t

/-- Embeds `LocalModParseTask::processAsLitemod`. -/
def LocalModParseTask.processAsLitemod (w : Collaborators) (t : LocalModParseTask) :
    LocalModParseTask :=
  match w.zipOpen t.m_modFile with
  | none => t
  | some zip =>
    let t := t.emit .zipOpened
    match zip "litemod.json" with
    | some entry =>
      match entry with
      | none => t.emit .zipClosed
      | some bytes =>
        let t := t.emit .fileOpened
        let t := { t with details := ReadLiteModInfo w.fromJson bytes }
        let t := t.emit .fileClosed
        t.emit .zipClosed
    | none => t.emit .zipClosed

/-- Embeds `LocalModParseTask::run`. -/
def LocalModParseTask.run (w : Collaborators) (t : LocalModParseTask) : LocalModParseTask :=
  let t :=
    match t.m_type with
    | .MOD_ZIPFILE => t.processAsZip w
    | .MOD_FOLDER => t.processAsFolder w
    | .MOD_LITEMOD => t.processAsLitemod w
    | _ => t
  t.emit (.finished t.m_token)

/-- Sample collaborators for evaluating `LocalModParseTask` on concrete inputs: a JSON parser that reads the
bytes `[1]` as a legacy mod list and anything else as a Fabric object, an INI
parser that accepts everything, no directory entries, and the given archive
reader. -/
def sampleCollaborators (zipOpen : QString → Option Archive) : Collaborators where
  fromJson := fun c =>
    if c = [1] then QJsonDocument.ofArray [QJsonValue.object [("modid", QJsonValue.string "legacy")]]
    else QJsonDocument.ofObject [("id", QJsonValue.string "fabric")]
  loadFile := fun _ => some []
  zipOpen := zipOpen
  PathCombine := fun a b => a ++ "/" ++ b
  isFile := fun _ => false
  readFile := fun _ => none

/-! ## The members each decoder reads -/

/-- Embeds `QJsonValue::Type`. -/
inductive QJsonType where
  | Null
  | Bool
  | Double
  | String
  | Array
  | Object
  | Undefined
  deriving DecidableEq, Repr

/-- Embeds `QJsonValue::type`. -/
def QJsonValue.type : QJsonValue → QJsonType
  | .null => .Null
  | .bool _ => .Bool
  | .double _ => .Double
  | .string _ => .String
  | .array _ => .Array
  | .object _ => .Object
  | .undefined => .Undefined

/-- The members `ReadFabricModInfo` reads from the top-level object, each with
the type its accessor converts (`toInt`, `toString`, `toArray`, `toObject`). -/
def fabricMembers : List (QString × QJsonType) :=
  [("schemaVersion", .Double), ("id", .String), ("version", .String), ("name", .String),
   ("description", .String), ("authors", .Array), ("contact", .Object)]

/-- The members `ReadMCModInfo` reads from a top-level object. -/
def mcmodTopMembers : List (QString × QJsonType) :=
  [("modinfoversion", .Double), ("modListVersion", .Double), ("modlist", .Array),
   ("modList", .Array)]

/-- The members `getInfoFromArray` reads from the first element. -/
def mcmodMembers : List (QString × QJsonType) :=
  [("modid", .String), ("name", .String), ("version", .String), ("updateUrl", .String),
   ("url", .String), ("description", .String), ("authorList", .Array), ("authors", .Array),
   ("credits", .String)]

/-- The members `ReadLiteModInfo` reads from the top-level object. -/
def litemodMembers : List (QString × QJsonType) :=
  [("name", .String), ("version", .String), ("revision", .String), ("mcversion", .String),
   ("author", .String), ("description", .String), ("url", .String)]

/-! ## Auxiliary facts -/

/-- The author loops only append to `authors`. -/
theorem foldl_authors (f : QJsonValue → QString) (l : List QJsonValue) (d : ModDetails) :
    l.foldl (fun d author => { d with authors := d.authors ++ [f author] }) d =
      { d with authors := d.authors ++ l.map f } := by
  induction l generalizing d with
  | nil => simp
  | cons a l ih => simp [ih]

/-- The descriptor `getInfoFromArray` builds when the first element is the object `o`. -/
theorem getInfoFromArray_object (o : QJsonObject) (rest : QJsonArray) :
    getInfoFromArray (QJsonValue.object o :: rest) =
      some
        { mod_id := (o.value "modid").toString ""
          name :=
            if (o.value "name").toString "" ≠ "Example Mod" then (o.value "name").toString ""
            else ""
          version := (o.value "version").toString ""
          updateurl := (o.value "updateUrl").toString ""
          homeurl :=
            if !(QString.trimmed ((o.value "url").toString "")).isEmpty then
              if !(QString.trimmed ((o.value "url").toString "")).startsWith "http://" &&
                  !(QString.trimmed ((o.value "url").toString "")).startsWith "https://" &&
                  !(QString.trimmed ((o.value "url").toString "")).startsWith "ftp://" then
                (QString.trimmed ((o.value "url").toString "")).prepend "http://"
              else QString.trimmed ((o.value "url").toString "")
            else QString.trimmed ((o.value "url").toString "")
          description := (o.value "description").toString ""
          authors :=
            (if (o.value "authorList").toArray.length = 0 then (o.value "authors").toArray
              else (o.value "authorList").toArray).map (fun a => a.toString "")
          credits := (o.value "credits").toString "" } := by
  simp only [getInfoFromArray, QJsonArray.at, List.getD_cons_zero, QJsonValue.isObject,
    QJsonValue.toObject, Bool.not_true, Bool.false_eq_true, if_false, foldl_authors]
  split <;> simp

/-- The author loop of `ReadFabricModInfo` appends one name per element. -/
theorem foldl_fabric_authors (l : List QJsonValue) (d : ModDetails) :
    l.foldl
        (fun d author =>
          if author.isObject then
            { d with authors := d.authors ++ [(author.toObject.value "name").toString ""] }
          else
            { d with authors := d.authors ++ [author.toString ""] }) d =
      { d with authors := d.authors ++ l.map fabricAuthorName } := by
  induction l generalizing d with
  | nil => simp
  | cons a l ih =>
    simp only [List.foldl_cons, ih, List.map_cons]
    cases h : a.isObject <;> simp [fabricAuthorName, h]

/-- The descriptor `ReadFabricModInfo` builds, field by field. -/
theorem ReadFabricModInfo_eq (fromJson : QByteArray → QJsonDocument) (contents : QByteArray) :
    ReadFabricModInfo fromJson contents =
      some
        { mod_id := ((fromJson contents).object.value "id").toString ""
          version := ((fromJson contents).object.value "version").toString ""
          name :=
            if (fromJson contents).object.contains "name" then
              ((fromJson contents).object.value "name").toString ""
            else ((fromJson contents).object.value "id").toString ""
          description := ((fromJson contents).object.value "description").toString ""
          authors :=
            if (if (fromJson contents).object.contains "schemaVersion" then
                  ((fromJson contents).object.value "schemaVersion").toInt 0 else 0) ≥ 1 then
              ((fromJson contents).object.value "authors").toArray.map fabricAuthorName
            else []
          homeurl :=
            if (if (fromJson contents).object.contains "schemaVersion" then
                  ((fromJson contents).object.value "schemaVersion").toInt 0 else 0) ≥ 1 then
              if (fromJson contents).object.contains "contact" then
                if ((fromJson contents).object.value "contact").toObject.contains "homepage" then
                  (((fromJson contents).object.value "contact").toObject.value "homepage").toString ""
                else ""
              else ""
            else "" } := by
  simp only [ReadFabricModInfo, foldl_fabric_authors]
  split_ifs <;> simp

/-- The descriptor `ReadLiteModInfo` builds, field by field. -/
theorem ReadLiteModInfo_eq (fromJson : QByteArray → QJsonDocument) (contents : QByteArray) :
    ReadLiteModInfo fromJson contents =
      some
        { mod_id :=
            if (fromJson contents).object.contains "name" then
              ((fromJson contents).object.value "name").toString ""
            else ""
          name :=
            if (fromJson contents).object.contains "name" then
              ((fromJson contents).object.value "name").toString ""
            else ""
          version :=
            if (fromJson contents).object.contains "version" then
              ((fromJson contents).object.value "version").toString ""
            else ((fromJson contents).object.value "revision").toString ""
          mcversion := ((fromJson contents).object.value "mcversion").toString ""
          authors :=
            if !(QString.isEmpty (((fromJson contents).object.value "author").toString "")) then
              [((fromJson contents).object.value "author").toString ""]
            else []
          description := ((fromJson contents).object.value "description").toString ""
          homeurl := ((fromJson contents).object.value "url").toString "" } := by
  simp only [ReadLiteModInfo]
  split <;> split <;> split <;> simp

/-- A key the object does not contain has the value `Undefined`. -/
theorem QJsonObject.value_of_not_contains (o : QJsonObject) (key : QString)
    (h : o.contains key = false) : o.value key = QJsonValue.undefined := by
  induction o with
  | nil => rfl
  | cons kv rest ih =>
    obtain ⟨k, v⟩ := kv
    by_cases hk : k = key
    · simp [QJsonObject.contains, hk] at h
    · simp only [QJsonObject.contains, hk, if_false] at h
      simp [QJsonObject.value, hk, ih h]

/-- Whether the string is empty, in terms of equality. -/
theorem QString.isEmpty_iff (s : QString) : s.isEmpty = true ↔ s = "" := by
  cases s with
  | mk l =>
    cases l with
    | nil => simp [QString.isEmpty]
    | cons c l =>
      simp only [QString.isEmpty, List.isEmpty_cons, Bool.false_eq_true, false_iff]
      intro h
      exact absurd (congrArg String.data h) (by simp)

/-- A string with `p` put in front starts with `p`. -/
theorem QString.startsWith_prepend (s p : QString) : (s.prepend p).startsWith p = true := by
  simp [QString.startsWith, QString.prepend, String.data_append]

/-- Lookup in an object written as the members before a member, the member, and those after. -/
theorem QJsonObject.value_append_cons (before after : QJsonObject) (k : QString) (v : QJsonValue)
    (key : QString) :
    QJsonObject.value (before ++ (k, v) :: after) key =
      if before.contains key then before.value key
      else if k = key then v else after.value key := by
  induction before with
  | nil => simp [QJsonObject.value, QJsonObject.contains]
  | cons kv rest ih =>
    obtain ⟨k', v'⟩ := kv
    by_cases hk : k' = key <;> simp [QJsonObject.value, QJsonObject.contains, hk, ih]

/-- Membership in an object written as the members before a member, the member, and those after. -/
theorem QJsonObject.contains_append_cons (before after : QJsonObject) (k : QString)
    (v : QJsonValue) (key : QString) :
    QJsonObject.contains (before ++ (k, v) :: after) key =
      (before.contains key || (decide (k = key) || after.contains key)) := by
  induction before with
  | nil => by_cases hk : k = key <;> simp [QJsonObject.contains, hk]
  | cons kv rest ih =>
    obtain ⟨k', v'⟩ := kv
    by_cases hk : k' = key <;> simp [QJsonObject.contains, hk, ih]

/-- The schema version `ReadFabricModInfo` reads from a whole number that fits an `int`. -/
theorem fabric_schemaVersion_of_int (o : QJsonObject) (n : Int)
    (hv : o.value "schemaVersion" = QJsonValue.double n)
    (hlo : -2147483648 ≤ n) (hhi : n ≤ 2147483647) :
    (if o.contains "schemaVersion" then (o.value "schemaVersion").toInt 0 else 0) = n := by
  have hc : o.contains "schemaVersion" = true := by
    cases h : o.contains "schemaVersion"
    · rw [QJsonObject.value_of_not_contains o _ h] at hv
      cases hv
    · rfl
  simp [hc, hv, QJsonValue.toInt, hlo, hhi]

/-- Every descriptor of `getInfoFromArray` has an empty homepage or one with a scheme. -/
theorem getInfoFromArray_homeurl (arr : QJsonArray) (d : ModDetails)
    (h : getInfoFromArray arr = some d) :
    d.homeurl = "" ∨ d.homeurl.startsWith "http://" = true ∨
      d.homeurl.startsWith "https://" = true ∨ d.homeurl.startsWith "ftp://" = true := by
  cases arr with
  | nil => simp [getInfoFromArray, QJsonArray.at, QJsonValue.isObject] at h
  | cons x rest =>
    cases x with
    | object o =>
      rw [getInfoFromArray_object] at h
      cases h
      dsimp only
      generalize QString.trimmed ((QJsonObject.value o "url").toString "") = t
      cases he : t.isEmpty
      · cases h1 : t.startsWith "http://" <;> cases h2 : t.startsWith "https://" <;>
          cases h3 : t.startsWith "ftp://" <;>
          simp [h1, h2, h3, QString.startsWith_prepend]
      · simp [(QString.isEmpty_iff t).mp he]
    | _ => simp [getInfoFromArray, QJsonArray.at, QJsonValue.isObject] at h

/-- A descriptor of `ReadMCModInfo` is one `getInfoFromArray` built from some array. -/
theorem ReadMCModInfo_some (fromJson : QByteArray → QJsonDocument) (contents : QByteArray)
    (d : ModDetails) (h : ReadMCModInfo fromJson contents = some d) :
    ∃ arr, getInfoFromArray arr = some d := by
  unfold ReadMCModInfo at h
  simp only at h
  split_ifs at h <;> exact ⟨_, h⟩

/-- The `toString` of a value that is not a string is the default. -/
theorem QJsonValue.toString_of_type_ne (v : QJsonValue) (d : QString)
    (h : v.type ≠ QJsonType.String) : v.toString d = d := by
  cases v <;> first | rfl | exact absurd rfl h

/-- The `toArray` of a value that is not an array is empty. -/
theorem QJsonValue.toArray_of_type_ne (v : QJsonValue) (h : v.type ≠ QJsonType.Array) :
    v.toArray = [] := by
  cases v <;> first | rfl | exact absurd rfl h

/-- The `isArray` of a value that is not an array is false. -/
theorem QJsonValue.isArray_of_type_ne (v : QJsonValue) (h : v.type ≠ QJsonType.Array) :
    v.isArray = false := by
  cases v <;> first | rfl | exact absurd rfl h

/-- The `toObject` of a value that is not an object is empty. -/
theorem QJsonValue.toObject_of_type_ne (v : QJsonValue) (h : v.type ≠ QJsonType.Object) :
    v.toObject = [] := by
  cases v <;> first | rfl | exact absurd rfl h

/-- The `toInt` of a value that is not a number is the default. -/
theorem QJsonValue.toInt_of_type_ne (v : QJsonValue) (d : Int)
    (h : v.type ≠ QJsonType.Double) : v.toInt d = d := by
  cases v <;> first | rfl | exact absurd rfl h

/-- The `toDouble` of a value that is not a number is zero. -/
theorem QJsonValue.toDouble_of_type_ne (v : QJsonValue) (h : v.type ≠ QJsonType.Double) :
    v.toDouble = 0 := by
  cases v <;> first | rfl | exact absurd rfl h

/-- The events `processAsZip` adds: none when the archive does not open, else an
open and a close of the archive, with an open and a close of the entry between
them when an entry was read. The token is left alone. -/
theorem processAsZip_events (w : Collaborators) (t : LocalModParseTask) :
    (t.processAsZip w).m_token = t.m_token ∧
      ((w.zipOpen t.m_modFile = none ∧ (t.processAsZip w).events = t.events) ∨
        (w.zipOpen t.m_modFile ≠ none ∧
          ((t.processAsZip w).events = t.events ++ [Event.zipOpened, Event.zipClosed] ∨
            (t.processAsZip w).events =
              t.events ++ [Event.zipOpened, Event.fileOpened, Event.fileClosed,
                Event.zipClosed]))) := by
  unfold LocalModParseTask.processAsZip
  cases hz : w.zipOpen t.m_modFile with
  | none => simp
  | some zip =>
    simp only [LocalModParseTask.emit]
    rcases h₁ : zip "mcmod.info" with _ | _ | _ <;>
      rcases h₂ : zip "fabric.mod.json" with _ | _ | _ <;>
      rcases h₃ : zip "forgeversion.properties" with _ | _ | _ <;> simp

/-- The events `processAsLitemod` adds, as for `processAsZip`. -/
theorem processAsLitemod_events (w : Collaborators) (t : LocalModParseTask) :
    (t.processAsLitemod w).m_token = t.m_token ∧
      ((w.zipOpen t.m_modFile = none ∧ (t.processAsLitemod w).events = t.events) ∨
        (w.zipOpen t.m_modFile ≠ none ∧
          ((t.processAsLitemod w).events = t.events ++ [Event.zipOpened, Event.zipClosed] ∨
            (t.processAsLitemod w).events =
              t.events ++ [Event.zipOpened, Event.fileOpened, Event.fileClosed,
                Event.zipClosed]))) := by
  unfold LocalModParseTask.processAsLitemod
  cases hz : w.zipOpen t.m_modFile with
  | none => simp
  | some zip =>
    simp only [LocalModParseTask.emit]
    rcases h₁ : zip "litemod.json" with _ | _ | _ <;> simp

/-- The directory branch adds no event and leaves the token alone. -/
theorem processAsFolder_events (w : Collaborators) (t : LocalModParseTask) :
    (t.processAsFolder w).m_token = t.m_token ∧ (t.processAsFolder w).events = t.events := by
  unfold LocalModParseTask.processAsFolder
  simp only
  split
  · split
    · exact ⟨rfl, rfl⟩
    · split <;> exact ⟨rfl, rfl⟩
  · exact ⟨rfl, rfl⟩

/-- The events of `processAsZip` on a freshly constructed task. -/
theorem processAsZip_events_new (w : Collaborators) (token : Int) (type : ModType)
    (modFile : QString) :
    ((LocalModParseTask.new token type modFile).processAsZip w).m_token = token ∧
      (((LocalModParseTask.new token type modFile).processAsZip w).events = [] ∨
        ((LocalModParseTask.new token type modFile).processAsZip w).events =
          [Event.zipOpened, Event.zipClosed] ∨
        ((LocalModParseTask.new token type modFile).processAsZip w).events =
          [Event.zipOpened, Event.fileOpened, Event.fileClosed, Event.zipClosed]) := by
  obtain ⟨htok, hev⟩ := processAsZip_events w (LocalModParseTask.new token type modFile)
  refine ⟨htok, ?_⟩
  rcases hev with h | ⟨_, h | h⟩
  · exact Or.inl h.2
  · exact Or.inr (Or.inl h)
  · exact Or.inr (Or.inr h)

/-- The events of `processAsLitemod` on a freshly constructed task. -/
theorem processAsLitemod_events_new (w : Collaborators) (token : Int) (type : ModType)
    (modFile : QString) :
    ((LocalModParseTask.new token type modFile).processAsLitemod w).m_token = token ∧
      (((LocalModParseTask.new token type modFile).processAsLitemod w).events = [] ∨
        ((LocalModParseTask.new token type modFile).processAsLitemod w).events =
          [Event.zipOpened, Event.zipClosed] ∨
        ((LocalModParseTask.new token type modFile).processAsLitemod w).events =
          [Event.zipOpened, Event.fileOpened, Event.fileClosed, Event.zipClosed]) := by
  obtain ⟨htok, hev⟩ := processAsLitemod_events w (LocalModParseTask.new token type modFile)
  refine ⟨htok, ?_⟩
  rcases hev with h | ⟨_, h | h⟩
  · exact Or.inl h.2
  · exact Or.inr (Or.inl h)
  · exact Or.inr (Or.inr h)

/-- Dropping at the end keeps a list free of a leading dropped element. -/
theorem dropWhile_rdropWhile_of_dropWhile_eq {α : Type} (p : α → Bool) (l : List α)
    (h : l.dropWhile p = l) : (l.rdropWhile p).dropWhile p = l.rdropWhile p := by
  obtain ⟨s, hs⟩ := List.rdropWhile_prefix p (l := l)
  cases hr : l.rdropWhile p with
  | nil => rfl
  | cons x r =>
    rw [hr] at hs
    have hx : ¬ p x = true := by
      have := (List.dropWhile_eq_self_iff (p := p) (l := l)).mp h
      subst hs
      simpa using this (by simp)
    simp [List.dropWhile_cons_of_neg hx]

/-- Putting a list in front of a non-empty list that loses nothing at the end
gives a list that loses nothing at the end. -/
theorem rdropWhile_append_of_rdropWhile_eq {α : Type} (p : α → Bool) (a t : List α)
    (h : t.rdropWhile p = t) (hne : t ≠ []) : (a ++ t).rdropWhile p = a ++ t := by
  rw [List.rdropWhile_eq_self_iff] at h ⊢
  intro hl
  rw [List.getLast_append_of_ne_nil hne]
  exact h hne

/-- The characters of a trimmed string, with the dropping at the end written
as `List.rdropWhile`. -/
theorem QString.trimmed_data (s : QString) :
    s.trimmed.data = (s.data.dropWhile QChar.isSpace).rdropWhile QChar.isSpace := rfl

/-- A trimmed string has no whitespace to lose at the start. -/
theorem QString.trimmed_dropWhile (s : QString) :
    s.trimmed.data.dropWhile QChar.isSpace = s.trimmed.data := by
  rw [QString.trimmed_data]
  exact dropWhile_rdropWhile_of_dropWhile_eq _ _ (List.dropWhile_idempotent _ _)

/-- A trimmed string has no whitespace to lose at the end. -/
theorem QString.trimmed_rdropWhile (s : QString) :
    s.trimmed.data.rdropWhile QChar.isSpace = s.trimmed.data := by
  rw [QString.trimmed_data]
  exact List.rdropWhile_idempotent _ _

/-- Trimming a trimmed string changes nothing. -/
theorem QString.trimmed_trimmed (s : QString) : s.trimmed.trimmed = s.trimmed := by
  apply String.ext
  rw [QString.trimmed_data s.trimmed, QString.trimmed_dropWhile, QString.trimmed_rdropWhile]

/-- Trimming changes nothing after "http://" is put in front of a non-empty
trimmed string. -/
theorem QString.trimmed_prepend_http (s : QString) (hne : s.trimmed.isEmpty = false) :
    (s.trimmed.prepend "http://").trimmed = s.trimmed.prepend "http://" := by
  apply String.ext
  have hne' : s.trimmed.data ≠ [] := by
    intro h
    simp [QString.isEmpty, h] at hne
  have hd : (s.trimmed.prepend "http://").data = "http://".data ++ s.trimmed.data := by
    simp [QString.prepend, String.data_append]
  rw [QString.trimmed_data, hd]
  have hhead : ("http://".data ++ s.trimmed.data).dropWhile QChar.isSpace =
      "http://".data ++ s.trimmed.data := by
    have : "http://".data = 'h' :: "ttp://".data := rfl
    rw [this, List.cons_append, List.dropWhile_cons_of_neg (by decide)]
  rw [hhead]
  exact rdropWhile_append_of_rdropWhile_eq _ _ _ (QString.trimmed_rdropWhile s) hne'

/-- The C++ truncation gives `2` exactly on the numbers from `2` up to, not including, `3`. -/
theorem doubleToInt_eq_two_iff (d : ℚ) : doubleToInt d = 2 ↔ 2 ≤ d ∧ d < 3 := by
  unfold doubleToInt
  by_cases h0 : 0 ≤ d
  · simp only [h0, if_true]
    constructor
    · intro h
      split at h
      · have := Int.floor_eq_iff.mp h
        constructor
        · exact_mod_cast this.1
        · have h2 := this.2
          norm_num at h2
          linarith
      · omega
    · rintro ⟨h2, h3⟩
      have hf : ⌊d⌋ = 2 := Int.floor_eq_iff.mpr ⟨by exact_mod_cast h2, by norm_num; linarith⟩
      simp [hf]
  · simp only [h0, if_false]
    have hneg : d < 0 := not_le.mp h0
    have hc : ⌈d⌉ ≤ 0 := Int.ceil_le.mpr (by exact_mod_cast hneg.le)
    constructor
    · intro h
      split at h <;> omega
    · rintro ⟨h2, _⟩
      linarith

/-! ## Theorems -/

/-- C1 (counterexample): when `INIFile::loadFile` fails, `ReadForgeInfo` returns
before the version is assigned, so the version is the empty string and not
`"0.0.0.0"`. -/
theorem C1_counterexample :
    (ReadForgeInfo (fun _ => none) []).map ModDetails.version = some "" ∧
      (ReadForgeInfo (fun _ => none) []).map ModDetails.version ≠ some "0.0.0.0" := by
  decide

/-- C1 (amended): for every input on which INI parsing fails, `ReadForgeInfo`
returns a descriptor with identifier "Forge", name "Minecraft Forge", homepage
"http://www.minecraftforge.net/forum/", an empty version and every other field
empty. -/
theorem C1_ReadForgeInfo_parse_failure (loadFile : QByteArray → Option INIFile)
    (contents : QByteArray) (hfail : loadFile contents = none) :
    ReadForgeInfo loadFile contents =
      some
        { mod_id := "Forge", name := "Minecraft Forge",
          homeurl := "http://www.minecraftforge.net/forum/", version := "",
          mcversion := "", updateurl := "", description := "", authors := [], credits := "" } := by
  simp [ReadForgeInfo, hfail]

/-- C1 (amended) at a concrete input: a parser that rejects the bytes `=`. -/
theorem C1_ReadForgeInfo_parse_failure_witness :
    ReadForgeInfo (fun _ => none) [0x3d] =
      some
        { mod_id := "Forge", name := "Minecraft Forge",
          homeurl := "http://www.minecraftforge.net/forum/", version := "",
          mcversion := "", updateurl := "", description := "", authors := [], credits := "" } :=
  C1_ReadForgeInfo_parse_failure (fun _ => none) [0x3d] rfl

/-- C2 (counterexample): a top-level object whose version field is the number
2.5, not exactly 2, still decodes to a descriptor, because the number is
truncated to the `int` 2 before the comparison. -/
theorem C2_counterexample :
    ReadMCModInfo
        (fun _ =>
          QJsonDocument.ofObject
            [("modinfoversion", QJsonValue.double (mkRat 5 2)),
             ("modlist", QJsonValue.array [QJsonValue.object [("modid", QJsonValue.string "m")]])])
        [] = some { mod_id := "m" } ∧ mkRat 5 2 ≠ 2 := by
  decide

/-- C2 (amended): for every input that parses to a top-level JSON object whose
version field (the value under "modinfoversion", or the one under
"modListVersion" when "modinfoversion" is absent) is a number outside the
interval from 2 up to, not including, 3, `ReadMCModInfo` returns no
descriptor, whatever the mod list holds. -/
theorem C2_ReadMCModInfo_bad_version (fromJson : QByteArray → QJsonDocument)
    (contents : QByteArray) (o : QJsonObject) (d : ℚ)
    (hdoc : fromJson contents = QJsonDocument.ofObject o)
    (hver : (if (o.value "modinfoversion").isUndefined then o.value "modListVersion"
              else o.value "modinfoversion") = QJsonValue.double d)
    (hd : ¬ (2 ≤ d ∧ d < 3)) :
    ReadMCModInfo fromJson contents = none := by
  have hne : doubleToInt d ≠ 2 := fun h => hd ((doubleToInt_eq_two_iff d).mp h)
  simp [ReadMCModInfo, hdoc, QJsonDocument.isArray, QJsonDocument.isObject,
    QJsonDocument.object, hver, QJsonValue.toDouble, hne]

/-- C2 (amended) at a concrete input: version 1 with a valid mod list under
"modList" yields no descriptor. -/
theorem C2_ReadMCModInfo_bad_version_witness :
    ReadMCModInfo
        (fun _ =>
          QJsonDocument.ofObject
            [("modListVersion", QJsonValue.double 1),
             ("modList", QJsonValue.array [QJsonValue.object [("modid", QJsonValue.string "m")]])])
        [] = none :=
  C2_ReadMCModInfo_bad_version _ [] _ 1 rfl rfl (by norm_num)

/-- C3: for every first-element object, with `t` the "url" string trimmed, the
descriptor's homepage is "" when `t` is empty, `t` itself when `t` starts with
"http://", "https://" or "ftp://", and "http://" followed by `t` otherwise. -/
theorem C3_homepage_normalisation (o : QJsonObject) (rest : QJsonArray) :
    ∃ d, getInfoFromArray (QJsonValue.object o :: rest) = some d ∧
      d.homeurl =
        if QString.trimmed ((o.value "url").toString "") = "" then ""
        else if (QString.trimmed ((o.value "url").toString "")).startsWith "http://" = true ∨
            (QString.trimmed ((o.value "url").toString "")).startsWith "https://" = true ∨
            (QString.trimmed ((o.value "url").toString "")).startsWith "ftp://" = true then
          QString.trimmed ((o.value "url").toString "")
        else "http://" ++ QString.trimmed ((o.value "url").toString "") := by
  refine ⟨_, getInfoFromArray_object o rest, ?_⟩
  dsimp only
  generalize QString.trimmed ((o.value "url").toString "") = t
  by_cases ht : t = ""
  · subst ht
    have he : QString.isEmpty "" = true := rfl
    simp [he]
  · have hne : t.isEmpty = false := by
      cases h : t.isEmpty
      · rfl
      · exact absurd ((QString.isEmpty_iff t).mp h) ht
    simp only [hne, ht, if_false, Bool.not_false, if_true]
    cases h1 : t.startsWith "http://" <;> cases h2 : t.startsWith "https://" <;>
      cases h3 : t.startsWith "ftp://" <;> simp [QString.prepend]

/-- C3 on the examples of the specification: "example.com" becomes
"http://example.com", "https://example.com" is unchanged, surrounding
whitespace is dropped and an empty homepage stays empty. -/
theorem C3_homepage_examples :
    (getInfoFromArray [QJsonValue.object [("url", QJsonValue.string "example.com")]]).map
        ModDetails.homeurl = some "http://example.com" ∧
    (getInfoFromArray [QJsonValue.object [("url", QJsonValue.string "https://example.com")]]).map
        ModDetails.homeurl = some "https://example.com" ∧
    (getInfoFromArray [QJsonValue.object [("url", QJsonValue.string " \tftp://example.com\n")]]).map
        ModDetails.homeurl = some "ftp://example.com" ∧
    (getInfoFromArray [QJsonValue.object [("url", QJsonValue.string "  ")]]).map
        ModDetails.homeurl = some "" := by
  decide

/-- C7: for every first-element object, the descriptor's name is the empty
string when the "name" value is exactly "Example Mod" and is the "name" value
for every other string. -/
theorem C7_placeholder_name (o : QJsonObject) (rest : QJsonArray) (s : QString)
    (hname : o.value "name" = QJsonValue.string s) :
    ∃ d, getInfoFromArray (QJsonValue.object o :: rest) = some d ∧
      d.name = if s = "Example Mod" then "" else s := by
  refine ⟨_, getInfoFromArray_object o rest, ?_⟩
  simp only [hname, QJsonValue.toString]
  by_cases hs : s = "Example Mod" <;> simp [hs]

/-- C7 at concrete names: the placeholder is dropped; names differing in case
or in surrounding whitespace are kept. -/
theorem C7_placeholder_name_witness :
    (∃ d, getInfoFromArray [QJsonValue.object [("name", QJsonValue.string "Example Mod")]] = some d ∧
      d.name = if "Example Mod" = "Example Mod" then "" else "Example Mod") ∧
    (∃ d, getInfoFromArray [QJsonValue.object [("name", QJsonValue.string "example mod")]] = some d ∧
      d.name = if "example mod" = "Example Mod" then "" else "example mod") ∧
    (∃ d, getInfoFromArray [QJsonValue.object [("name", QJsonValue.string " Example Mod")]] = some d ∧
      d.name = if " Example Mod" = "Example Mod" then "" else " Example Mod") :=
  ⟨C7_placeholder_name _ [] "Example Mod" rfl, C7_placeholder_name _ [] "example mod" rfl,
    C7_placeholder_name _ [] " Example Mod" rfl⟩

/-- C9: for every parsed document, `ReadLiteModInfo` returns a descriptor whose
version is the "version" string when the key "version" is present, the
"revision" string when "version" is absent and "revision" is present, and
empty when both are absent. -/
theorem C9_litemod_version (fromJson : QByteArray → QJsonDocument) (contents : QByteArray) :
    ∃ d, ReadLiteModInfo fromJson contents = some d ∧
      d.version =
        if (fromJson contents).object.contains "version" then
          ((fromJson contents).object.value "version").toString ""
        else if (fromJson contents).object.contains "revision" then
          ((fromJson contents).object.value "revision").toString ""
        else "" := by
  refine ⟨_, ReadLiteModInfo_eq fromJson contents, ?_⟩
  cases hv : (fromJson contents).object.contains "version"
  · cases hr : (fromJson contents).object.contains "revision"
    · simp [QJsonObject.value_of_not_contains _ _ hr, QJsonValue.toString]
    · simp
  · simp

/-- C4 (counterexample): `ReadFabricModInfo` and `ReadLiteModInfo` store the
homepage as it is written, so a descriptor can carry the homepage
"example.com", which is neither empty nor begins with a scheme. -/
theorem C4_counterexample :
    (ReadFabricModInfo
        (fun _ =>
          QJsonDocument.ofObject
            [("schemaVersion", QJsonValue.double 1),
             ("contact", QJsonValue.object [("homepage", QJsonValue.string "example.com")])])
        []).map ModDetails.homeurl = some "example.com" ∧
    (ReadLiteModInfo (fun _ => QJsonDocument.ofObject [("url", QJsonValue.string "example.com")])
        []).map ModDetails.homeurl = some "example.com" ∧
    ¬ ("example.com" = "" ∨ QString.startsWith "example.com" "http://" = true ∨
        QString.startsWith "example.com" "https://" = true ∨
        QString.startsWith "example.com" "ftp://" = true) := by
  decide

/-- C4 (amended): for `ReadMCModInfo` and `ReadForgeInfo` and every input that
yields a descriptor, the descriptor's homepage is either empty or begins with
"http://", "https://" or "ftp://". -/
theorem C4_homepage_scheme (fromJson : QByteArray → QJsonDocument)
    (loadFile : QByteArray → Option INIFile) (contents : QByteArray) (d : ModDetails)
    (h : ReadMCModInfo fromJson contents = some d ∨ ReadForgeInfo loadFile contents = some d) :
    d.homeurl = "" ∨ d.homeurl.startsWith "http://" = true ∨
      d.homeurl.startsWith "https://" = true ∨ d.homeurl.startsWith "ftp://" = true := by
  rcases h with h | h
  · obtain ⟨arr, harr⟩ := ReadMCModInfo_some fromJson contents d h
    exact getInfoFromArray_homeurl arr d harr
  · have hs : QString.startsWith "http://www.minecraftforge.net/forum/" "http://" = true := by
      decide
    unfold ReadForgeInfo at h
    cases hl : loadFile contents <;> simp only [hl] at h <;> cases h <;> exact Or.inr (Or.inl hs)

/-- C4 at concrete inputs: a legacy descriptor with homepage "example.com" and
the Forge descriptor. -/
theorem C4_homepage_scheme_witness :
    (("http://example.com" : QString) = "" ∨
      QString.startsWith "http://example.com" "http://" = true ∨
      QString.startsWith "http://example.com" "https://" = true ∨
      QString.startsWith "http://example.com" "ftp://" = true) ∧
    (("http://www.minecraftforge.net/forum/" : QString) = "" ∨
      QString.startsWith "http://www.minecraftforge.net/forum/" "http://" = true ∨
      QString.startsWith "http://www.minecraftforge.net/forum/" "https://" = true ∨
      QString.startsWith "http://www.minecraftforge.net/forum/" "ftp://" = true) :=
  ⟨C4_homepage_scheme
      (fun _ => QJsonDocument.ofArray [QJsonValue.object [("url", QJsonValue.string "example.com")]])
      (fun _ => none) [] { homeurl := "http://example.com" } (Or.inl (by decide)),
   C4_homepage_scheme (fun _ => QJsonDocument.ofNull) (fun _ => some []) []
      { mod_id := "Forge", name := "Minecraft Forge",
        homeurl := "http://www.minecraftforge.net/forum/", version := "0.0.0.0" }
      (Or.inr (by decide))⟩

/-- C5 (counterexample): the whole number 2147483648 is a schema version of at
least 1, yet it does not fit the `int` it is read into, the default 0 is taken
and neither the authors nor the homepage are filled in. -/
theorem C5_counterexample :
    ReadFabricModInfo
        (fun _ =>
          QJsonDocument.ofObject
            [("schemaVersion", QJsonValue.double 2147483648),
             ("id", QJsonValue.string "m"),
             ("authors", QJsonValue.array [QJsonValue.string "a"]),
             ("contact", QJsonValue.object [("homepage", QJsonValue.string "http://m.org")])])
        [] = some { mod_id := "m", name := "m", authors := [], homeurl := "" } := by
  decide

/-- C5 (amended): for every JSON object whose "schemaVersion" is absent or 0,
the descriptor of `ReadFabricModInfo` has no authors and an empty homepage,
whatever "authors" and "contact" hold; for every object whose "schemaVersion"
is a whole number from 1 to 2147483647, the authors are the names of the
elements of the "authors" array, one per element and in order, and the
homepage is the string at contact.homepage when "contact" contains "homepage". -/
theorem C5_fabric_schema_gate (fromJson : QByteArray → QJsonDocument) (contents : QByteArray)
    (o : QJsonObject) (hdoc : fromJson contents = QJsonDocument.ofObject o) :
    ∃ d, ReadFabricModInfo fromJson contents = some d ∧
      (o.contains "schemaVersion" = false ∨ o.value "schemaVersion" = QJsonValue.double 0 →
        d.authors = [] ∧ d.homeurl = "") ∧
      (∀ n : Int, o.value "schemaVersion" = QJsonValue.double n → 1 ≤ n → n ≤ 2147483647 →
        d.authors = (o.value "authors").toArray.map fabricAuthorName ∧
        d.authors.length = (o.value "authors").toArray.length ∧
        (o.contains "contact" = true → (o.value "contact").toObject.contains "homepage" = true →
          d.homeurl = ((o.value "contact").toObject.value "homepage").toString "")) := by
  refine ⟨_, ReadFabricModInfo_eq fromJson contents, ?_, ?_⟩
  · intro h
    have hsv : (if o.contains "schemaVersion" then (o.value "schemaVersion").toInt 0 else 0) = 0 := by
      rcases h with h | h
      · simp [h]
      · simp [h, QJsonValue.toInt]
    simp [hdoc, QJsonDocument.object, hsv]
  · intro n hn h1 h2
    have hsv := fabric_schemaVersion_of_int o n hn (by omega) h2
    simp only [hdoc, QJsonDocument.object, hsv]
    refine ⟨by simp [h1], by simp [h1], ?_⟩
    intro hc hh
    simp [h1, hc, hh]

/-- C5 at concrete inputs: without a schema version the authors and the
homepage stay empty, with schema version 1 both are filled in. -/
theorem C5_fabric_schema_gate_witness :
    (∃ d, ReadFabricModInfo
        (fun _ =>
          QJsonDocument.ofObject
            [("authors", QJsonValue.array [QJsonValue.string "a"]),
             ("contact", QJsonValue.object [("homepage", QJsonValue.string "http://m.org")])])
        [] = some d ∧ d.authors = [] ∧ d.homeurl = "") ∧
    (∃ d, ReadFabricModInfo
        (fun _ =>
          QJsonDocument.ofObject
            [("schemaVersion", QJsonValue.double 1),
             ("authors", QJsonValue.array [QJsonValue.string "a", QJsonValue.string "b"]),
             ("contact", QJsonValue.object [("homepage", QJsonValue.string "http://m.org")])])
        [] = some d ∧ d.authors = ["a", "b"] ∧ d.homeurl = "http://m.org") := by
  constructor
  · obtain ⟨d, hd, h0, _⟩ := C5_fabric_schema_gate
      (fun _ =>
        QJsonDocument.ofObject
          [("authors", QJsonValue.array [QJsonValue.string "a"]),
           ("contact", QJsonValue.object [("homepage", QJsonValue.string "http://m.org")])])
      [] _ rfl
    exact ⟨d, hd, h0 (Or.inl rfl)⟩
  · obtain ⟨d, hd, _, h1⟩ := C5_fabric_schema_gate
      (fun _ =>
        QJsonDocument.ofObject
          [("schemaVersion", QJsonValue.double 1),
           ("authors", QJsonValue.array [QJsonValue.string "a", QJsonValue.string "b"]),
           ("contact", QJsonValue.object [("homepage", QJsonValue.string "http://m.org")])])
      [] _ rfl
    obtain ⟨ha, _, hh⟩ := h1 1 (by simp [QJsonObject.value]) (by decide) (by decide)
    exact ⟨d, hd, ha, hh rfl rfl⟩

/-- C6 (counterexample): with the schema version 2147483648, a whole number of
at least 1 that does not fit the `int` it is read into, the authors stay empty,
so neither the element "X" nor the element with "name": "X" contributes the
name X. -/
theorem C6_counterexample :
    (ReadFabricModInfo
        (fun _ =>
          QJsonDocument.ofObject
            [("schemaVersion", QJsonValue.double 2147483648),
             ("authors", QJsonValue.array [QJsonValue.string "X"])])
        []).map ModDetails.authors = some [] ∧
    (ReadFabricModInfo
        (fun _ =>
          QJsonDocument.ofObject
            [("schemaVersion", QJsonValue.double 2147483648),
             ("authors", QJsonValue.array [QJsonValue.object [("name", QJsonValue.string "X")]])])
        []).map ModDetails.authors = some [] ∧
    ([] : List QString)[0]? ≠ some "X" := by
  decide

/-- C6 (amended): for every string X and every parsed object, replacing an
element "X" of the "authors" array by the object with the single member
"name": "X" leaves the descriptor of `ReadFabricModInfo` unchanged; and when the
schema version is a whole number from 1 to 2147483647 (and the "authors" member
is the one a lookup finds), the authors of the descriptor are the names of the
elements before, then X, then the names of the elements after, so both forms
contribute X at the position of the element. -/
theorem C6_fabric_author_forms (fromJson : QByteArray → QJsonDocument)
    (c₁ c₂ : QByteArray) (before after : QJsonObject) (front back : QJsonArray) (X : QString)
    (h₁ : fromJson c₁ = QJsonDocument.ofObject
      (before ++ ("authors", QJsonValue.array (front ++ QJsonValue.string X :: back)) :: after))
    (h₂ : fromJson c₂ = QJsonDocument.ofObject
      (before ++ ("authors", QJsonValue.array
        (front ++ QJsonValue.object [("name", QJsonValue.string X)] :: back)) :: after)) :
    ReadFabricModInfo fromJson c₁ = ReadFabricModInfo fromJson c₂ ∧
    (∀ n : Int, (fromJson c₁).object.value "schemaVersion" = QJsonValue.double n →
      1 ≤ n → n ≤ 2147483647 → before.contains "authors" = false →
      ∃ d, ReadFabricModInfo fromJson c₁ = some d ∧ ReadFabricModInfo fromJson c₂ = some d ∧
        d.authors = front.map fabricAuthorName ++ X :: back.map fabricAuthorName ∧
        d.authors[front.length]? = some X ∧
        d.authors.length = front.length + 1 + back.length) := by
  have hs : fabricAuthorName (QJsonValue.string X) = X := rfl
  have ho : fabricAuthorName (QJsonValue.object [("name", QJsonValue.string X)]) = X := by
    simp [fabricAuthorName, QJsonValue.isObject, QJsonValue.toObject, QJsonObject.value,
      QJsonValue.toString]
  have heq : ReadFabricModInfo fromJson c₁ = ReadFabricModInfo fromJson c₂ := by
    rw [ReadFabricModInfo_eq, ReadFabricModInfo_eq]
    simp only [h₁, h₂, QJsonDocument.object, QJsonObject.value_append_cons,
      QJsonObject.contains_append_cons]
    cases hb : before.contains "authors" <;>
      simp [QJsonValue.toArray, hs, ho]
  refine ⟨heq, ?_⟩
  intro n hv hlo hhi hb
  have hsv := fabric_schemaVersion_of_int (fromJson c₁).object n hv (by omega) hhi
  have e₁ := ReadFabricModInfo_eq fromJson c₁
  have hauth : ((fromJson c₁).object.value "authors").toArray.map fabricAuthorName =
      front.map fabricAuthorName ++ X :: back.map fabricAuthorName := by
    simp [h₁, QJsonDocument.object, QJsonObject.value_append_cons, hb, QJsonValue.toArray, hs]
  refine ⟨_, e₁, heq.symm.trans e₁, ?_, ?_, ?_⟩
  · simp only [hsv, ge_iff_le, hlo, if_true, hauth]
  · simp only [hsv, ge_iff_le, hlo, if_true, hauth]
    rw [List.getElem?_append_right (by simp)]
    simp
  · simp only [hsv, ge_iff_le, hlo, if_true, hauth]
    simp
    omega

/-- C6 (amended) at a concrete input: with schema version 1 and the authors
"A", "X", the element "X" written either way, both documents decode to the
same descriptor and its authors are "A", "X". -/
theorem C6_fabric_author_forms_witness :
    ∃ d,
      ReadFabricModInfo
          (fun c => if c = [1] then
              QJsonDocument.ofObject
                [("schemaVersion", QJsonValue.double 1),
                 ("authors", QJsonValue.array [QJsonValue.string "A", QJsonValue.string "X"])]
            else
              QJsonDocument.ofObject
                [("schemaVersion", QJsonValue.double 1),
                 ("authors", QJsonValue.array
                   [QJsonValue.string "A", QJsonValue.object [("name", QJsonValue.string "X")]])])
          [1] = some d ∧
      ReadFabricModInfo
          (fun c => if c = [1] then
              QJsonDocument.ofObject
                [("schemaVersion", QJsonValue.double 1),
                 ("authors", QJsonValue.array [QJsonValue.string "A", QJsonValue.string "X"])]
            else
              QJsonDocument.ofObject
                [("schemaVersion", QJsonValue.double 1),
                 ("authors", QJsonValue.array
                   [QJsonValue.string "A", QJsonValue.object [("name", QJsonValue.string "X")]])])
          [2] = some d ∧
      d.authors = ["A", "X"] ∧ d.authors[1]? = some "X" := by
  obtain ⟨d, hd₁, hd₂, ha, hx, _⟩ :=
    (C6_fabric_author_forms
      (fun c => if c = [1] then
          QJsonDocument.ofObject
            [("schemaVersion", QJsonValue.double 1),
             ("authors", QJsonValue.array [QJsonValue.string "A", QJsonValue.string "X"])]
        else
          QJsonDocument.ofObject
            [("schemaVersion", QJsonValue.double 1),
             ("authors", QJsonValue.array
               [QJsonValue.string "A", QJsonValue.object [("name", QJsonValue.string "X")]])])
      [1] [2] [("schemaVersion", QJsonValue.double 1)] []
      [QJsonValue.string "A"] [] "X" rfl rfl).2 1
      (by simp [QJsonDocument.object, QJsonObject.value])
      (by decide) (by decide) rfl
  exact ⟨d, hd₁, hd₂, ha, hx⟩

/-- C8 (counterexample): the three examples of the claim fail. Fabric "name"
given as a number leaves the name empty instead of the identifier; legacy
"modinfoversion" given as a string yields no descriptor instead of falling back
to "modListVersion"; litemod "version" given as a number leaves the version
empty instead of the revision. In each case removing the key gives the other
result. -/
theorem C8_counterexample :
    (ReadFabricModInfo
        (fun _ => QJsonDocument.ofObject
          [("name", QJsonValue.double 1), ("id", QJsonValue.string "m")]) [] =
        some { mod_id := "m", name := "" } ∧
      ReadFabricModInfo
        (fun _ => QJsonDocument.ofObject [("id", QJsonValue.string "m")]) [] =
        some { mod_id := "m", name := "m" }) ∧
    (ReadMCModInfo
        (fun _ => QJsonDocument.ofObject
          [("modinfoversion", QJsonValue.string "2"), ("modListVersion", QJsonValue.double 2),
           ("modList", QJsonValue.array [QJsonValue.object [("modid", QJsonValue.string "m")]])])
        [] = none ∧
      ReadMCModInfo
        (fun _ => QJsonDocument.ofObject
          [("modListVersion", QJsonValue.double 2),
           ("modList", QJsonValue.array [QJsonValue.object [("modid", QJsonValue.string "m")]])])
        [] = some { mod_id := "m" }) ∧
    (ReadLiteModInfo
        (fun _ => QJsonDocument.ofObject
          [("version", QJsonValue.double 1), ("revision", QJsonValue.string "r")]) [] =
        some { version := "" } ∧
      ReadLiteModInfo
        (fun _ => QJsonDocument.ofObject [("revision", QJsonValue.string "r")]) [] =
        some { version := "r" }) := by
  decide

/-- C8 (amended): a member with a value of the wrong type decodes like the
object without that member, for every member a decoder reads apart from the
four whose presence is tested on its own (Fabric "name", legacy
"modinfoversion" and "modlist", litemod "version"): the top-level members of
`ReadFabricModInfo`, `ReadMCModInfo` and `ReadLiteModInfo`, the members of the
first element in `getInfoFromArray`, "homepage" inside the Fabric "contact"
and "name" inside a Fabric author. -/
theorem C8_wrong_type_as_absent (fromJson : QByteArray → QJsonDocument) (c₁ c₂ : QByteArray)
    (o : QJsonObject) (k : QString) (ty : QJsonType) (v : QJsonValue)
    (habsent : o.contains k = false) (hwrong : v.type ≠ ty) :
    (fromJson c₁ = QJsonDocument.ofObject ((k, v) :: o) → fromJson c₂ = QJsonDocument.ofObject o →
      ((k, ty) ∈ fabricMembers → k ≠ "name" →
        ReadFabricModInfo fromJson c₁ = ReadFabricModInfo fromJson c₂) ∧
      ((k, ty) ∈ mcmodTopMembers → k ≠ "modinfoversion" → k ≠ "modlist" →
        ReadMCModInfo fromJson c₁ = ReadMCModInfo fromJson c₂) ∧
      ((k, ty) ∈ litemodMembers → k ≠ "version" →
        ReadLiteModInfo fromJson c₁ = ReadLiteModInfo fromJson c₂)) ∧
    ((k, ty) ∈ mcmodMembers → ∀ rest : QJsonArray,
      getInfoFromArray (QJsonValue.object ((k, v) :: o) :: rest) =
        getInfoFromArray (QJsonValue.object o :: rest)) ∧
    (k = "homepage" → ty = QJsonType.String → ∀ top : QJsonObject,
      fromJson c₁ = QJsonDocument.ofObject (("contact", QJsonValue.object ((k, v) :: o)) :: top) →
      fromJson c₂ = QJsonDocument.ofObject (("contact", QJsonValue.object o) :: top) →
      ReadFabricModInfo fromJson c₁ = ReadFabricModInfo fromJson c₂) ∧
    (k = "name" → ty = QJsonType.String →
      fabricAuthorName (QJsonValue.object ((k, v) :: o)) = fabricAuthorName (QJsonValue.object o)) := by
  have hund := QJsonObject.value_of_not_contains o k habsent
  refine ⟨?_, ?_, ?_, ?_⟩
  · intro h₁ h₂
    refine ⟨?_, ?_, ?_⟩
    · intro hmem hne
      rw [ReadFabricModInfo_eq, ReadFabricModInfo_eq, h₁, h₂]
      simp only [fabricMembers, List.mem_cons, Prod.mk.injEq, List.mem_nil_iff, or_false] at hmem
      rcases hmem with hm | hm | hm | hm | hm | hm | hm <;> obtain ⟨rfl, rfl⟩ := hm
      · simp only [QJsonDocument.object, QJsonObject.value, QJsonObject.contains, String.reduceEq,
          if_false, if_true, habsent, hund, QJsonValue.toInt_of_type_ne _ _ hwrong]
        simp
      · simp only [QJsonDocument.object, QJsonObject.value, QJsonObject.contains, String.reduceEq,
          if_false, if_true, habsent, hund, QJsonValue.toString_of_type_ne _ _ hwrong]
        simp [QJsonValue.toString]
      · simp only [QJsonDocument.object, QJsonObject.value, QJsonObject.contains, String.reduceEq,
          if_false, if_true, habsent, hund, QJsonValue.toString_of_type_ne _ _ hwrong]
        simp [QJsonValue.toString]
      · exact absurd rfl hne
      · simp only [QJsonDocument.object, QJsonObject.value, QJsonObject.contains, String.reduceEq,
          if_false, if_true, habsent, hund, QJsonValue.toString_of_type_ne _ _ hwrong]
        simp [QJsonValue.toString]
      · simp only [QJsonDocument.object, QJsonObject.value, QJsonObject.contains, String.reduceEq,
          if_false, if_true, habsent, hund, QJsonValue.toArray_of_type_ne _ hwrong]
        simp [QJsonValue.toArray]
      · simp only [QJsonDocument.object, QJsonObject.value, QJsonObject.contains, String.reduceEq,
          if_false, if_true, habsent, hund, QJsonValue.toObject_of_type_ne _ hwrong]
        simp [QJsonValue.toObject, QJsonObject.contains]
    · intro hmem hne₁ hne₂
      simp only [mcmodTopMembers, List.mem_cons, Prod.mk.injEq, List.mem_nil_iff, or_false] at hmem
      rcases hmem with hm | hm | hm | hm <;> obtain ⟨rfl, rfl⟩ := hm
      · exact absurd rfl hne₁
      · simp only [ReadMCModInfo, h₁, h₂, QJsonDocument.isArray, QJsonDocument.isObject,
          QJsonDocument.object, QJsonObject.value, String.reduceEq, if_false, if_true, hund]
        cases hu : (QJsonObject.value o "modinfoversion").isUndefined <;>
          simp [QJsonValue.toDouble_of_type_ne _ hwrong,
            show QJsonValue.undefined.toDouble = 0 from rfl]
      · exact absurd rfl hne₂
      · simp only [ReadMCModInfo, h₁, h₂, QJsonDocument.isArray, QJsonDocument.isObject,
          QJsonDocument.object, QJsonObject.value, String.reduceEq, if_false, if_true, hund]
        cases hu : (QJsonObject.value o "modlist").isUndefined <;>
          simp [QJsonValue.isArray_of_type_ne _ hwrong,
            show QJsonValue.undefined.isArray = false from rfl]
    · intro hmem hne
      rw [ReadLiteModInfo_eq, ReadLiteModInfo_eq, h₁, h₂]
      simp only [litemodMembers, List.mem_cons, Prod.mk.injEq, List.mem_nil_iff, or_false] at hmem
      have hs : QString.isEmpty "" = true := rfl
      rcases hmem with hm | hm | hm | hm | hm | hm | hm <;> obtain ⟨rfl, rfl⟩ := hm
      · simp only [QJsonDocument.object, QJsonObject.value, QJsonObject.contains, String.reduceEq,
          if_false, if_true, habsent, hund, QJsonValue.toString_of_type_ne _ _ hwrong]
        simp [QJsonValue.toString, hs]
      · exact absurd rfl hne
      all_goals
        simp only [QJsonDocument.object, QJsonObject.value, QJsonObject.contains, String.reduceEq,
          if_false, if_true, habsent, hund, QJsonValue.toString_of_type_ne _ _ hwrong]
        simp [QJsonValue.toString, hs]
  · intro hmem rest
    rw [getInfoFromArray_object, getInfoFromArray_object]
    simp only [mcmodMembers, List.mem_cons, Prod.mk.injEq, List.mem_nil_iff, or_false] at hmem
    rcases hmem with hm | hm | hm | hm | hm | hm | hm | hm | hm <;> obtain ⟨rfl, rfl⟩ := hm
    all_goals
      first
      | (simp only [QJsonObject.value, String.reduceEq, if_false, if_true, hund,
          QJsonValue.toString_of_type_ne _ _ hwrong]; simp [QJsonValue.toString])
      | (simp only [QJsonObject.value, String.reduceEq, if_false, if_true, hund,
          QJsonValue.toArray_of_type_ne _ hwrong]; simp [QJsonValue.toArray])
  · intro hk hty top h₁ h₂
    subst hk
    subst hty
    rw [ReadFabricModInfo_eq, ReadFabricModInfo_eq, h₁, h₂]
    simp only [QJsonDocument.object, QJsonObject.value, QJsonObject.contains, String.reduceEq,
      if_false, if_true, habsent, hund, QJsonValue.toObject,
      QJsonValue.toString_of_type_ne _ _ hwrong]
    simp
  · intro hk hty
    subst hk
    subst hty
    simp [fabricAuthorName, QJsonValue.isObject, QJsonValue.toObject, QJsonObject.value, hund,
      QJsonValue.toString_of_type_ne _ _ hwrong,
      show QJsonValue.undefined.toString "" = "" from rfl]

/-- C8 at concrete inputs: Fabric "id" given as a number decodes like the
object without "id", and legacy "authorList" given as a string decodes like
the first element without it. -/
theorem C8_wrong_type_as_absent_witness :
    ReadFabricModInfo
        (fun c => if c = [1] then
            QJsonDocument.ofObject [("id", QJsonValue.double 1), ("name", QJsonValue.string "n")]
          else QJsonDocument.ofObject [("name", QJsonValue.string "n")]) [1] =
      ReadFabricModInfo
        (fun c => if c = [1] then
            QJsonDocument.ofObject [("id", QJsonValue.double 1), ("name", QJsonValue.string "n")]
          else QJsonDocument.ofObject [("name", QJsonValue.string "n")]) [2] ∧
    getInfoFromArray
        [QJsonValue.object
          [("authorList", QJsonValue.string "a"),
           ("authors", QJsonValue.array [QJsonValue.string "b"])]] =
      getInfoFromArray
        [QJsonValue.object [("authors", QJsonValue.array [QJsonValue.string "b"])]] :=
  ⟨((C8_wrong_type_as_absent _ [1] [2] [("name", QJsonValue.string "n")] "id" QJsonType.String
      (QJsonValue.double 1) rfl (by decide)).1 rfl rfl).1 (by simp [fabricMembers]) (by decide),
   (C8_wrong_type_as_absent (fun _ => QJsonDocument.ofNull) [] []
      [("authors", QJsonValue.array [QJsonValue.string "b"])] "authorList" QJsonType.Array
      (QJsonValue.string "a") rfl (by decide)).2.1 (by simp [mcmodMembers]) []⟩

/-- C10: for every archive that opens, the descriptor `processAsZip` leaves is
decided by the first existing entry among mcmod.info, fabric.mod.json and
forgeversion.properties, in that order: it is the decoder of that entry applied
to the entry's bytes (the descriptor is left as it was when the entry cannot be
read, or when none of the three exists). In particular an archive with
mcmod.info yields `ReadMCModInfo` of its bytes, and two archives with the same
mcmod.info give the same result whatever else they hold. -/
theorem C10_processAsZip_priority (w : Collaborators) (t : LocalModParseTask) (zip : Archive)
    (hopen : w.zipOpen t.m_modFile = some zip) :
    (∀ entry, zip "mcmod.info" = some entry →
      (t.processAsZip w).details =
        match entry with
        | some bytes => ReadMCModInfo w.fromJson bytes
        | none => t.details) ∧
    (zip "mcmod.info" = none → ∀ entry, zip "fabric.mod.json" = some entry →
      (t.processAsZip w).details =
        match entry with
        | some bytes => ReadFabricModInfo w.fromJson bytes
        | none => t.details) ∧
    (zip "mcmod.info" = none → zip "fabric.mod.json" = none →
      ∀ entry, zip "forgeversion.properties" = some entry →
      (t.processAsZip w).details =
        match entry with
        | some bytes => ReadForgeInfo w.loadFile bytes
        | none => t.details) ∧
    (zip "mcmod.info" = none → zip "fabric.mod.json" = none →
      zip "forgeversion.properties" = none → (t.processAsZip w).details = t.details) ∧
    (∀ (zipOpen' : QString → Option Archive) (zip' : Archive),
      zipOpen' t.m_modFile = some zip' → zip' "mcmod.info" = zip "mcmod.info" →
      zip "mcmod.info" ≠ none →
      (t.processAsZip { w with zipOpen := zipOpen' }).details = (t.processAsZip w).details) := by
  refine ⟨?_, ?_, ?_, ?_, ?_⟩
  · intro entry h
    cases entry <;>
      simp [LocalModParseTask.processAsZip, hopen, h, LocalModParseTask.emit]
  · intro h₁ entry h
    cases entry <;>
      simp [LocalModParseTask.processAsZip, hopen, h₁, h, LocalModParseTask.emit]
  · intro h₁ h₂ entry h
    cases entry <;>
      simp [LocalModParseTask.processAsZip, hopen, h₁, h₂, h, LocalModParseTask.emit]
  · intro h₁ h₂ h₃
    simp [LocalModParseTask.processAsZip, hopen, h₁, h₂, h₃, LocalModParseTask.emit]
  · intro zipOpen' zip' hopen' hsame hex
    cases h : zip "mcmod.info" with
    | none => exact absurd h hex
    | some entry =>
      rw [h] at hsame
      cases entry <;>
        simp [LocalModParseTask.processAsZip, hopen, hopen', hsame, h, LocalModParseTask.emit]

/-- C10 at a concrete archive holding both mcmod.info and fabric.mod.json: the
result is `ReadMCModInfo` of the mcmod.info bytes. -/
theorem C10_processAsZip_priority_witness :
    ((LocalModParseTask.new 7 ModType.MOD_ZIPFILE "a.jar").processAsZip
        { fromJson := fun c =>
            if c = [1] then QJsonDocument.ofArray [QJsonValue.object [("modid", QJsonValue.string "legacy")]]
            else QJsonDocument.ofObject [("id", QJsonValue.string "fabric")]
          loadFile := fun _ => none
          zipOpen := fun _ => some (fun name =>
            if name = "mcmod.info" then some (some [1])
            else if name = "fabric.mod.json" then some (some [2]) else none)
          PathCombine := fun a b => a ++ "/" ++ b
          isFile := fun _ => false
          readFile := fun _ => none }).details =
      ReadMCModInfo
        (fun c =>
          if c = [1] then QJsonDocument.ofArray [QJsonValue.object [("modid", QJsonValue.string "legacy")]]
          else QJsonDocument.ofObject [("id", QJsonValue.string "fabric")]) [1] :=
  (C10_processAsZip_priority _ (LocalModParseTask.new 7 ModType.MOD_ZIPFILE "a.jar")
    (fun name =>
      if name = "mcmod.info" then some (some [1])
      else if name = "fabric.mod.json" then some (some [2]) else none) rfl).1 (some [1]) rfl

/-- C10, evaluated: the archive of the witness decodes to the legacy
descriptor, not the Fabric one. -/
theorem C10_processAsZip_priority_eval :
    ((LocalModParseTask.new 7 ModType.MOD_ZIPFILE "a.jar").processAsZip
        { fromJson := fun c =>
            if c = [1] then QJsonDocument.ofArray [QJsonValue.object [("modid", QJsonValue.string "legacy")]]
            else QJsonDocument.ofObject [("id", QJsonValue.string "fabric")]
          loadFile := fun _ => none
          zipOpen := fun _ => some (fun name =>
            if name = "mcmod.info" then some (some [1])
            else if name = "fabric.mod.json" then some (some [2]) else none)
          PathCombine := fun a b => a ++ "/" ++ b
          isFile := fun _ => false
          readFile := fun _ => none }).details = some { mod_id := "legacy" } := by
  decide

/-- C19: in `processAsZip` and in `processAsLitemod`, when the archive opens the
events added are the open of the archive, possibly an open and a close of the
entry, and one close of the archive as the last event, so the handle is closed
exactly once before the function returns; when the archive does not open no
event, hence no close, is added. -/
theorem C19_archive_handle_discipline (w : Collaborators) (t : LocalModParseTask) :
    (w.zipOpen t.m_modFile ≠ none →
      (((t.processAsZip w).events = t.events ++ [Event.zipOpened, Event.zipClosed] ∨
          (t.processAsZip w).events =
            t.events ++ [Event.zipOpened, Event.fileOpened, Event.fileClosed, Event.zipClosed]) ∧
        (t.processAsZip w).events.count Event.zipClosed = t.events.count Event.zipClosed + 1) ∧
      (((t.processAsLitemod w).events = t.events ++ [Event.zipOpened, Event.zipClosed] ∨
          (t.processAsLitemod w).events =
            t.events ++ [Event.zipOpened, Event.fileOpened, Event.fileClosed, Event.zipClosed]) ∧
        (t.processAsLitemod w).events.count Event.zipClosed =
          t.events.count Event.zipClosed + 1)) ∧
    (w.zipOpen t.m_modFile = none →
      (t.processAsZip w).events = t.events ∧ (t.processAsLitemod w).events = t.events) := by
  obtain ⟨_, hz⟩ := processAsZip_events w t
  obtain ⟨_, hl⟩ := processAsLitemod_events w t
  constructor
  · intro hopen
    have hz' := hz.resolve_left (fun h => hopen h.1)
    have hl' := hl.resolve_left (fun h => hopen h.1)
    refine ⟨⟨hz'.2, ?_⟩, ⟨hl'.2, ?_⟩⟩
    · rcases hz'.2 with h | h <;> rw [h] <;> simp [List.count_append]
    · rcases hl'.2 with h | h <;> rw [h] <;> simp [List.count_append]
  · intro hfail
    exact ⟨(hz.resolve_right (fun h => h.1 hfail)).2, (hl.resolve_right (fun h => h.1 hfail)).2⟩

/-- C19 at concrete archives: one that opens and holds no known entry is closed
once; one that does not open sees no event. -/
theorem C19_archive_handle_discipline_witness :
    ((LocalModParseTask.new 7 ModType.MOD_ZIPFILE "a.jar").processAsZip
        (sampleCollaborators (fun _ => some (fun _ => none)))).events.count Event.zipClosed =
      0 + 1 ∧
    ((LocalModParseTask.new 7 ModType.MOD_LITEMOD "a.litemod").processAsLitemod
        (sampleCollaborators (fun _ => none))).events = [] :=
  ⟨((C19_archive_handle_discipline (sampleCollaborators (fun _ => some (fun _ => none)))
      (LocalModParseTask.new 7 ModType.MOD_ZIPFILE "a.jar")).1 (by simp [sampleCollaborators])).1.2,
   ((C19_archive_handle_discipline (sampleCollaborators (fun _ => none))
      (LocalModParseTask.new 7 ModType.MOD_LITEMOD "a.litemod")).2 rfl).2⟩

/-- C11: for every classification and every outcome of the branch, `run` on a
freshly constructed task adds exactly one `finished` event, it carries the
token given to the constructor, and it comes after every event of the branch;
the descriptor is the one the branch left. -/
theorem C11_run_finished_once (w : Collaborators) (token : Int) (type : ModType)
    (modFile : QString) :
    ((LocalModParseTask.new token type modFile).run w).events.count (Event.finished token) = 1 ∧
    (∀ tok, Event.finished tok ∈ ((LocalModParseTask.new token type modFile).run w).events →
      tok = token) ∧
    (∃ branch : LocalModParseTask,
      branch =
        (match type with
        | ModType.MOD_ZIPFILE => (LocalModParseTask.new token type modFile).processAsZip w
        | ModType.MOD_FOLDER => (LocalModParseTask.new token type modFile).processAsFolder w
        | ModType.MOD_LITEMOD => (LocalModParseTask.new token type modFile).processAsLitemod w
        | _ => LocalModParseTask.new token type modFile) ∧
      ((LocalModParseTask.new token type modFile).run w).events =
        branch.events ++ [Event.finished token] ∧
      (∀ tok, Event.finished tok ∉ branch.events) ∧
      ((LocalModParseTask.new token type modFile).run w).details = branch.details) := by
  have key : ∀ branch : LocalModParseTask, branch.m_token = token →
      (branch.events = [] ∨ branch.events = [Event.zipOpened, Event.zipClosed] ∨
        branch.events = [Event.zipOpened, Event.fileOpened, Event.fileClosed, Event.zipClosed]) →
      (branch.emit (Event.finished branch.m_token)).events.count (Event.finished token) = 1 ∧
      (∀ tok, Event.finished tok ∈ (branch.emit (Event.finished branch.m_token)).events →
        tok = token) ∧
      (branch.emit (Event.finished branch.m_token)).events =
        branch.events ++ [Event.finished token] ∧
      (∀ tok, Event.finished tok ∉ branch.events) := by
    intro branch htok hev
    rcases hev with h | h | h <;> simp [LocalModParseTask.emit, h, htok]
  cases type
  case MOD_ZIPFILE =>
    obtain ⟨htok, hev⟩ := processAsZip_events_new w token ModType.MOD_ZIPFILE modFile
    obtain ⟨k₁, k₂, k₃, k₄⟩ := key _ htok hev
    exact ⟨k₁, k₂, _, rfl, k₃, k₄, rfl⟩
  case MOD_LITEMOD =>
    obtain ⟨htok, hev⟩ := processAsLitemod_events_new w token ModType.MOD_LITEMOD modFile
    obtain ⟨k₁, k₂, k₃, k₄⟩ := key _ htok hev
    exact ⟨k₁, k₂, _, rfl, k₃, k₄, rfl⟩
  case MOD_FOLDER =>
    obtain ⟨htok, hev⟩ :=
      processAsFolder_events w (LocalModParseTask.new token ModType.MOD_FOLDER modFile)
    obtain ⟨k₁, k₂, k₃, k₄⟩ := key _ htok (Or.inl hev)
    exact ⟨k₁, k₂, _, rfl, k₃, k₄, rfl⟩
  case MOD_UNKNOWN =>
    obtain ⟨k₁, k₂, k₃, k₄⟩ :=
      key (LocalModParseTask.new token ModType.MOD_UNKNOWN modFile) rfl (Or.inl rfl)
    exact ⟨k₁, k₂, _, rfl, k₃, k₄, rfl⟩
  case MOD_SINGLEFILE =>
    obtain ⟨k₁, k₂, k₃, k₄⟩ :=
      key (LocalModParseTask.new token ModType.MOD_SINGLEFILE modFile) rfl (Or.inl rfl)
    exact ⟨k₁, k₂, _, rfl, k₃, k₄, rfl⟩

/-- C12: for every input on which INI parsing succeeds, the descriptor of
`ReadForgeInfo` has identifier "Forge", name "Minecraft Forge", homepage
"http://www.minecraftforge.net/forum/" and the version major.minor.revision.build,
each component being the value stored under forge.major.number,
forge.minor.number, forge.revision.number, forge.build.number, or "0" when the
key is missing. -/
theorem C12_ReadForgeInfo_parse_success (loadFile : QByteArray → Option INIFile)
    (contents : QByteArray) (ini : INIFile) (hok : loadFile contents = some ini) :
    ReadForgeInfo loadFile contents =
      some
        { mod_id := "Forge", name := "Minecraft Forge",
          homeurl := "http://www.minecraftforge.net/forum/",
          version :=
            (ini.lookup "forge.major.number").getD "0" ++ "." ++
              (ini.lookup "forge.minor.number").getD "0" ++ "." ++
              (ini.lookup "forge.revision.number").getD "0" ++ "." ++
              (ini.lookup "forge.build.number").getD "0",
          mcversion := "", updateurl := "", description := "", authors := [], credits := "" } := by
  simp [ReadForgeInfo, hok, INIFile.get]

/-- C12 at concrete maps: the empty map gives "0.0.0.0", and a map with the
major and the build number gives "14.0.0.2847". -/
theorem C12_ReadForgeInfo_parse_success_witness :
    ReadForgeInfo (fun _ => some []) [] =
      some
        { mod_id := "Forge", name := "Minecraft Forge",
          homeurl := "http://www.minecraftforge.net/forum/", version := "0.0.0.0" } ∧
    ReadForgeInfo
        (fun _ => some [("forge.major.number", "14"), ("forge.build.number", "2847")]) [] =
      some
        { mod_id := "Forge", name := "Minecraft Forge",
          homeurl := "http://www.minecraftforge.net/forum/", version := "14.0.0.2847" } :=
  ⟨C12_ReadForgeInfo_parse_success (fun _ => some []) [] [] rfl,
   C12_ReadForgeInfo_parse_success
    (fun _ => some [("forge.major.number", "14"), ("forge.build.number", "2847")]) []
    [("forge.major.number", "14"), ("forge.build.number", "2847")] rfl⟩

/-- C13: for a top-level mod-list array, `ReadMCModInfo` gives no descriptor
when the array is empty or its first element is not an object, a descriptor
when the first element is an object, and two arrays with the same first element
decode to the same result whatever follows it. -/
theorem C13_first_element_rule (fromJson : QByteArray → QJsonDocument) :
    (∀ c, fromJson c = QJsonDocument.ofArray [] → ReadMCModInfo fromJson c = none) ∧
    (∀ c₁ c₂ x r₁ r₂, fromJson c₁ = QJsonDocument.ofArray (x :: r₁) →
      fromJson c₂ = QJsonDocument.ofArray (x :: r₂) →
      ReadMCModInfo fromJson c₁ = ReadMCModInfo fromJson c₂ ∧
      (x.isObject = false → ReadMCModInfo fromJson c₁ = none) ∧
      (x.isObject = true → ∃ d, ReadMCModInfo fromJson c₁ = some d)) := by
  constructor
  · intro c h
    simp [ReadMCModInfo, h, QJsonDocument.isArray, QJsonDocument.array, getInfoFromArray,
      QJsonArray.at, QJsonValue.isObject]
  · intro c₁ c₂ x r₁ r₂ h₁ h₂
    have e₁ : ReadMCModInfo fromJson c₁ = getInfoFromArray (x :: r₁) := by
      simp [ReadMCModInfo, h₁, QJsonDocument.isArray, QJsonDocument.array]
    have e₂ : ReadMCModInfo fromJson c₂ = getInfoFromArray (x :: r₂) := by
      simp [ReadMCModInfo, h₂, QJsonDocument.isArray, QJsonDocument.array]
    rw [e₁, e₂]
    cases x with
    | object o =>
      refine ⟨by rw [getInfoFromArray_object, getInfoFromArray_object], ?_, ?_⟩
      · intro h
        simp [QJsonValue.isObject] at h
      · intro _
        exact ⟨_, getInfoFromArray_object o r₁⟩
    | _ =>
      refine ⟨by simp [getInfoFromArray, QJsonArray.at, QJsonValue.isObject], ?_, ?_⟩
      · intro _
        simp [getInfoFromArray, QJsonArray.at, QJsonValue.isObject]
      · intro h
        simp [QJsonValue.isObject] at h

/-- C13 at concrete arrays: the empty array and an array starting with a string
give no descriptor; two arrays starting with the same object decode alike. -/
theorem C13_first_element_rule_witness :
    ReadMCModInfo (fun _ => QJsonDocument.ofArray []) [] = none ∧
    ReadMCModInfo
        (fun _ => QJsonDocument.ofArray [QJsonValue.string "m", QJsonValue.object []]) [] =
      none ∧
    ReadMCModInfo
        (fun c => QJsonDocument.ofArray
          (QJsonValue.object [("modid", QJsonValue.string "m")] ::
            (if c = [1] then [] else [QJsonValue.object [("modid", QJsonValue.string "n")]])))
        [1] =
      ReadMCModInfo
        (fun c => QJsonDocument.ofArray
          (QJsonValue.object [("modid", QJsonValue.string "m")] ::
            (if c = [1] then [] else [QJsonValue.object [("modid", QJsonValue.string "n")]])))
        [2] :=
  ⟨(C13_first_element_rule (fun _ => QJsonDocument.ofArray [])).1 [] rfl,
   ((C13_first_element_rule
      (fun _ => QJsonDocument.ofArray [QJsonValue.string "m", QJsonValue.object []])).2
      [] [] _ _ _ rfl rfl).2.1 rfl,
   ((C13_first_element_rule
      (fun c => QJsonDocument.ofArray
        (QJsonValue.object [("modid", QJsonValue.string "m")] ::
          (if c = [1] then [] else [QJsonValue.object [("modid", QJsonValue.string "n")]])))).2
      [1] [2] _ _ _ rfl rfl).1⟩

/-- C15: for every array A and every top-level object O whose version (under
"modinfoversion", or under "modListVersion" when "modinfoversion" is absent) is
2 and which stores A under "modlist" (or under "modList" when "modlist" is
absent), `ReadMCModInfo` of O is `ReadMCModInfo` of the bare array A. -/
theorem C15_wrapper_equivalence (fromJson : QByteArray → QJsonDocument)
    (cO cA : QByteArray) (O : QJsonObject) (A : QJsonArray)
    (hO : fromJson cO = QJsonDocument.ofObject O) (hA : fromJson cA = QJsonDocument.ofArray A)
    (hver : O.value "modinfoversion" = QJsonValue.double 2 ∨
      (O.contains "modinfoversion" = false ∧ O.value "modListVersion" = QJsonValue.double 2))
    (hlist : O.value "modlist" = QJsonValue.array A ∨
      (O.contains "modlist" = false ∧ O.value "modList" = QJsonValue.array A)) :
    ReadMCModInfo fromJson cO = ReadMCModInfo fromJson cA := by
  have h2 : doubleToInt 2 = 2 := (doubleToInt_eq_two_iff 2).mpr ⟨le_refl _, by norm_num⟩
  have eA : ReadMCModInfo fromJson cA = getInfoFromArray A := by
    simp [ReadMCModInfo, hA, QJsonDocument.isArray, QJsonDocument.array]
  have hv : (if (O.value "modinfoversion").isUndefined then O.value "modListVersion"
      else O.value "modinfoversion") = QJsonValue.double 2 := by
    rcases hver with h | ⟨hc, h⟩
    · simp [h, QJsonValue.isUndefined]
    · simp [QJsonObject.value_of_not_contains O _ hc, h, QJsonValue.isUndefined]
  have hl : (if (O.value "modlist").isUndefined then O.value "modList"
      else O.value "modlist") = QJsonValue.array A := by
    rcases hlist with h | ⟨hc, h⟩
    · simp [h, QJsonValue.isUndefined]
    · simp [QJsonObject.value_of_not_contains O _ hc, h, QJsonValue.isUndefined]
  rw [eA]
  simp [ReadMCModInfo, hO, QJsonDocument.isArray, QJsonDocument.isObject, QJsonDocument.object,
    hv, hl, QJsonValue.toDouble, h2, QJsonValue.isArray, QJsonValue.toArray]

/-- C15 at a concrete input: the object with "modListVersion" 2 and the list
under "modList" against the bare list. -/
theorem C15_wrapper_equivalence_witness :
    ReadMCModInfo
        (fun c => if c = [1] then
            QJsonDocument.ofObject
              [("modListVersion", QJsonValue.double 2),
               ("modList", QJsonValue.array [QJsonValue.object [("modid", QJsonValue.string "m")]])]
          else QJsonDocument.ofArray [QJsonValue.object [("modid", QJsonValue.string "m")]])
        [1] =
      ReadMCModInfo
        (fun c => if c = [1] then
            QJsonDocument.ofObject
              [("modListVersion", QJsonValue.double 2),
               ("modList", QJsonValue.array [QJsonValue.object [("modid", QJsonValue.string "m")]])]
          else QJsonDocument.ofArray [QJsonValue.object [("modid", QJsonValue.string "m")]])
        [2] :=
  C15_wrapper_equivalence _ [1] [2] _ _ rfl rfl (Or.inr ⟨rfl, rfl⟩) (Or.inr ⟨rfl, rfl⟩)

/-- C16: for every first-element object, the authors of the descriptor are built
from the "authorList" array when it is not empty and from the "authors" array
otherwise: one entry per element of the chosen array, in its order, duplicates
included, each entry the string value of the element. -/
theorem C16_mcmod_authors (o : QJsonObject) (rest : QJsonArray) :
    ∃ d, getInfoFromArray (QJsonValue.object o :: rest) = some d ∧
      d.authors =
        (if (o.value "authorList").toArray.isEmpty then (o.value "authors").toArray
          else (o.value "authorList").toArray).map (fun a => a.toString "") ∧
      d.authors.length =
        (if (o.value "authorList").toArray.isEmpty then (o.value "authors").toArray
          else (o.value "authorList").toArray).length := by
  refine ⟨_, getInfoFromArray_object o rest, ?_, ?_⟩
  · dsimp only
    cases h : (o.value "authorList").toArray <;> simp
  · dsimp only
    cases h : (o.value "authorList").toArray <;> simp

/-- C16 evaluated: "authorList" wins when it is not empty, duplicates and order
are kept, and an empty "authorList" gives way to "authors". -/
theorem C16_mcmod_authors_eval :
    (getInfoFromArray
        [QJsonValue.object
          [("authorList", QJsonValue.array
              [QJsonValue.string "b", QJsonValue.string "a", QJsonValue.string "b"]),
           ("authors", QJsonValue.array [QJsonValue.string "c"])]]).map ModDetails.authors =
      some ["b", "a", "b"] ∧
    (getInfoFromArray
        [QJsonValue.object
          [("authorList", QJsonValue.array []),
           ("authors", QJsonValue.array [QJsonValue.string "c"])]]).map ModDetails.authors =
      some ["c"] := by
  decide

/-- C17: for every input `ReadFabricModInfo` returns a descriptor, and when the
bytes are not valid JSON or their top level is not an object every field of
that descriptor is empty. -/
theorem C17_fabric_never_fails (fromJson : QByteArray → QJsonDocument) (contents : QByteArray) :
    (∃ d, ReadFabricModInfo fromJson contents = some d) ∧
    (fromJson contents = QJsonDocument.ofNull ∨ (∃ a, fromJson contents = QJsonDocument.ofArray a) →
      ReadFabricModInfo fromJson contents =
        some
          { mod_id := "", name := "", version := "", mcversion := "", homeurl := "",
            updateurl := "", description := "", authors := [], credits := "" }) := by
  refine ⟨⟨_, ReadFabricModInfo_eq fromJson contents⟩, ?_⟩
  intro h
  rw [ReadFabricModInfo_eq]
  rcases h with h | ⟨a, h⟩ <;>
    simp [h, QJsonDocument.object, QJsonObject.value, QJsonObject.contains, QJsonValue.toString]

/-- C17 at concrete inputs: a parse failure and a top-level array both give the
descriptor with every field empty. -/
theorem C17_fabric_never_fails_witness :
    ReadFabricModInfo (fun _ => QJsonDocument.ofNull) [0x7b] =
      some
        { mod_id := "", name := "", version := "", mcversion := "", homeurl := "",
          updateurl := "", description := "", authors := [], credits := "" } ∧
    ReadFabricModInfo (fun _ => QJsonDocument.ofArray [QJsonValue.string "x"]) [] =
      some
        { mod_id := "", name := "", version := "", mcversion := "", homeurl := "",
          updateurl := "", description := "", authors := [], credits := "" } :=
  ⟨(C17_fabric_never_fails (fun _ => QJsonDocument.ofNull) [0x7b]).2 (Or.inl rfl),
   (C17_fabric_never_fails (fun _ => QJsonDocument.ofArray [QJsonValue.string "x"]) []).2
    (Or.inr ⟨_, rfl⟩)⟩

/-- C20: the homepage normalisation of `getInfoFromArray` is idempotent: for
every first-element object, feeding the homepage of the descriptor back as the
"url" of another first-element object decodes to the same homepage. -/
theorem C20_homepage_idempotent (o o' : QJsonObject) (rest rest' : QJsonArray)
    (d d' : ModDetails) (h : getInfoFromArray (QJsonValue.object o :: rest) = some d)
    (hfeed : o'.value "url" = QJsonValue.string d.homeurl)
    (h' : getInfoFromArray (QJsonValue.object o' :: rest') = some d') :
    d'.homeurl = d.homeurl := by
  rw [getInfoFromArray_object] at h h'
  cases h
  cases h'
  dsimp only at hfeed ⊢
  generalize (o.value "url").toString "" = s at hfeed ⊢
  rw [hfeed]
  have hstr : ∀ x : QString, (QJsonValue.string x).toString "" = x := fun _ => rfl
  simp only [hstr]
  have he : QString.isEmpty "" = true := rfl
  cases hemp : s.trimmed.isEmpty
  · cases h1 : s.trimmed.startsWith "http://" <;> cases h2 : s.trimmed.startsWith "https://" <;>
      cases h3 : s.trimmed.startsWith "ftp://" <;>
      simp [h1, h2, h3, hemp, QString.trimmed_trimmed, QString.trimmed_prepend_http s hemp,
        QString.startsWith_prepend]
  · have hs : s.trimmed = "" := (QString.isEmpty_iff _).mp hemp
    simp [hs, he, show QString.trimmed "" = "" from rfl]

/-- C20 at a concrete input: "example.com" decodes to "http://example.com",
which fed back decodes to itself. -/
theorem C20_homepage_idempotent_witness :
    getInfoFromArray [QJsonValue.object [("url", QJsonValue.string " example.com ")]] =
      some { homeurl := "http://example.com" } ∧
    getInfoFromArray [QJsonValue.object [("url", QJsonValue.string "http://example.com")]] =
      some { homeurl := "http://example.com" } ∧
    ({ homeurl := "http://example.com" } : ModDetails).homeurl = "http://example.com" :=
  ⟨by decide, by decide,
   C20_homepage_idempotent [("url", QJsonValue.string " example.com ")]
    [("url", QJsonValue.string "http://example.com")] [] []
    { homeurl := "http://example.com" } { homeurl := "http://example.com" }
    (by decide) rfl (by decide)⟩

/-- C18: for every archive that opens, when the first existing entry among
mcmod.info, fabric.mod.json and forgeversion.properties cannot be opened for
reading, `processAsZip` on a fresh task, and `run` on a fresh archive task,
leave no descriptor, whatever the entries of lower priority hold. -/
theorem C18_no_fall_through (w : Collaborators) (token : Int) (type : ModType)
    (modFile : QString) (zip : Archive) (hopen : w.zipOpen modFile = some zip)
    (hblocked : zip "mcmod.info" = some none ∨
      (zip "mcmod.info" = none ∧ zip "fabric.mod.json" = some none) ∨
      (zip "mcmod.info" = none ∧ zip "fabric.mod.json" = none ∧
        zip "forgeversion.properties" = some none)) :
    ((LocalModParseTask.new token type modFile).processAsZip w).details = none ∧
    ((LocalModParseTask.new token ModType.MOD_ZIPFILE modFile).run w).details = none := by
  have hz : ∀ ty, ((LocalModParseTask.new token ty modFile).processAsZip w).details = none := by
    intro ty
    rcases hblocked with h | ⟨h₁, h⟩ | ⟨h₁, h₂, h⟩
    · simp [LocalModParseTask.processAsZip, hopen, h, LocalModParseTask.emit,
        LocalModParseTask.new]
    · simp [LocalModParseTask.processAsZip, hopen, h₁, h, LocalModParseTask.emit,
        LocalModParseTask.new]
    · simp [LocalModParseTask.processAsZip, hopen, h₁, h₂, h, LocalModParseTask.emit,
        LocalModParseTask.new]
  exact ⟨hz type, hz ModType.MOD_ZIPFILE⟩

/-- C18 at a concrete archive: mcmod.info exists and cannot be opened,
fabric.mod.json is readable and decodable, and there is no descriptor. -/
theorem C18_no_fall_through_witness :
    ((LocalModParseTask.new 7 ModType.MOD_ZIPFILE "a.jar").processAsZip
        (sampleCollaborators (fun _ => some (fun name =>
          if name = "mcmod.info" then some none
          else if name = "fabric.mod.json" then some (some [2]) else none)))).details = none ∧
    ReadFabricModInfo (sampleCollaborators (fun _ => none)).fromJson [2] =
      some { mod_id := "fabric", name := "fabric" } :=
  ⟨(C18_no_fall_through
      (sampleCollaborators (fun _ => some (fun name =>
        if name = "mcmod.info" then some none
        else if name = "fabric.mod.json" then some (some [2]) else none)))
      7 ModType.MOD_ZIPFILE "a.jar" _ rfl (Or.inl rfl)).1, by decide⟩

/-- C14: for every directory, `processAsFolder` on a fresh task leaves a
descriptor only if mcmod.info in the directory is a file, opens and has
non-empty content, and then the result is `ReadMCModInfo` of that content; a
directory without mcmod.info, or with an unreadable or empty one, yields no
descriptor; and nothing but that one path of the file system is consulted. -/
theorem C14_processAsFolder (w : Collaborators) (token : Int) (type : ModType)
    (modFile : QString) :
    (∀ d, ((LocalModParseTask.new token type modFile).processAsFolder w).details = some d →
      w.isFile (w.PathCombine modFile "mcmod.info") = true ∧
      ∃ data, w.readFile (w.PathCombine modFile "mcmod.info") = some data ∧ data ≠ [] ∧
        ReadMCModInfo w.fromJson data = some d) ∧
    (∀ data, w.isFile (w.PathCombine modFile "mcmod.info") = true →
      w.readFile (w.PathCombine modFile "mcmod.info") = some data → data ≠ [] →
      ((LocalModParseTask.new token type modFile).processAsFolder w).details =
        ReadMCModInfo w.fromJson data) ∧
    (w.isFile (w.PathCombine modFile "mcmod.info") = false ∨
        w.readFile (w.PathCombine modFile "mcmod.info") = none ∨
        w.readFile (w.PathCombine modFile "mcmod.info") = some [] →
      ((LocalModParseTask.new token type modFile).processAsFolder w).details = none) ∧
    (∀ w' : Collaborators, w'.fromJson = w.fromJson → w'.PathCombine = w.PathCombine →
      w'.isFile (w.PathCombine modFile "mcmod.info") =
        w.isFile (w.PathCombine modFile "mcmod.info") →
      w'.readFile (w.PathCombine modFile "mcmod.info") =
        w.readFile (w.PathCombine modFile "mcmod.info") →
      ((LocalModParseTask.new token type modFile).processAsFolder w').details =
        ((LocalModParseTask.new token type modFile).processAsFolder w).details) := by
  have hdef : ∀ v : Collaborators,
      ((LocalModParseTask.new token type modFile).processAsFolder v).details =
        if v.isFile (v.PathCombine modFile "mcmod.info") then
          match v.readFile (v.PathCombine modFile "mcmod.info") with
          | none => none
          | some data => if data.isEmpty then none else ReadMCModInfo v.fromJson data
        else none := by
    intro v
    simp only [LocalModParseTask.processAsFolder, LocalModParseTask.new, Bool.or_self]
    split
    · split
      · rfl
      · split <;> rfl
    · rfl
  refine ⟨?_, ?_, ?_, ?_⟩
  · intro d hd
    rw [hdef] at hd
    cases hf : w.isFile (w.PathCombine modFile "mcmod.info")
    · simp [hf] at hd
    · cases hr : w.readFile (w.PathCombine modFile "mcmod.info") with
      | none => simp [hf, hr] at hd
      | some data =>
        cases data with
        | nil => simp [hf, hr] at hd
        | cons b bs =>
          simp only [hf, hr, if_true, List.isEmpty_cons, Bool.false_eq_true, if_false] at hd
          exact ⟨rfl, _, rfl, by simp, hd⟩
  · intro data hf hr hne
    rw [hdef]
    cases data with
    | nil => exact absurd rfl hne
    | cons b bs => simp [hf, hr]
  · intro h
    rw [hdef]
    rcases h with h | h | h <;> simp [h]
  · intro w' hj hp hf hr
    rw [hdef, hdef, hj, hp, hf, hr]

/-- C14 at concrete directories: one without mcmod.info gives no descriptor,
one with a readable mcmod.info gives `ReadMCModInfo` of its content. -/
theorem C14_processAsFolder_witness :
    ((LocalModParseTask.new 7 ModType.MOD_FOLDER "mods/a").processAsFolder
        (sampleCollaborators (fun _ => none))).details = none ∧
    ((LocalModParseTask.new 7 ModType.MOD_FOLDER "mods/a").processAsFolder
        { sampleCollaborators (fun _ => none) with
          isFile := fun p => decide (p = "mods/a/mcmod.info")
          readFile := fun p => if p = "mods/a/mcmod.info" then some [1] else none }).details =
      ReadMCModInfo (sampleCollaborators (fun _ => none)).fromJson [1] :=
  ⟨(C14_processAsFolder (sampleCollaborators (fun _ => none)) 7 ModType.MOD_FOLDER "mods/a").2.2.1
      (Or.inl rfl),
   (C14_processAsFolder
      { sampleCollaborators (fun _ => none) with
        isFile := fun p => decide (p = "mods/a/mcmod.info")
        readFile := fun p => if p = "mods/a/mcmod.info" then some [1] else none }
      7 ModType.MOD_FOLDER "mods/a").2.1 [1] (by decide) (by decide) (by decide)⟩

end MultiMC
